import Mathlib

/-!
Shallow embedding of the Gandi Ansible repository:

* `contrib/inventory/gandi.py` — the dynamic-inventory script.  Its core is
  `GandiInventory.group_nodes`, which folds over the node list, resolving each
  node's datacenter by a linear scan of the locations (`next(...)`, raising
  `StopIteration` when exhausted), collecting the VLAN names of the node's
  interfaces, recording per-host facts, and appending the node's name to its
  farm group (a bare Python list), its datacenter group and its VLAN groups
  (dicts `{'hosts': [...], 'vars': {...}}`), finally storing the meta map under
  the key `"_meta"`.
* `lib/ansible/modules/cloud/gandi/gandi_vlan.py` — `create_pvlan` and its
  helpers (`_get_by_name`, `get_pvlan_info`).
* `lib/ansible/modules/cloud/gandi/gandi_iface.py` — `delete_iface`,
  `create_iface` and the `state`-dispatch in `main`.

Python exceptions and `module.fail_json` aborts are modelled with `Except`:
computation stops at the first raised error and no partial result is returned,
mirroring an uncaught exception aborting the script.  Python dicts are
modelled as insertion-ordered association lists (`Dict`), with lookup finding
the first binding and assignment updating it in place.
-/

/-- The abort conditions the translated code can hit.  `typeError` stands for
both Python `TypeError` (indexing a list with a string, as in
`groups[location.name]['hosts']` when the binding is a bare list) and
`AttributeError` (calling `.append` on a dict), which both abort the run the
same way.  `fail_json` models `module.fail_json(msg=...)`, which prints the
message and exits. -/
inductive PyErr where
  | stopIteration
  | keyError
  | indexError
  | valueError
  | typeError
  | nameError
  | fail_json (msg : String)
deriving DecidableEq

/-- The numeric value of a decimal digit, `none` for any other character. -/
def digitVal (c : Char) : Option Nat :=
  if c.isDigit then some (c.toNat - '0'.toNat) else none

/-- The value of a non-empty string of decimal digits, most significant
first; `none` on the empty list or any non-digit. -/
def natOfDigits : List Char → Option Nat
  | [] => none
  | cs => go cs 0
where
  go : List Char → Nat → Option Nat
  | [], acc => some acc
  | c :: rest, acc =>
      match digitVal c with
      | some d => go rest (acc * 10 + d)
      | none => none

/-- The value Python `int(s)` computes on a string: surrounding whitespace is
stripped, an optional sign followed by decimal digits is accepted, and
anything else (in particular the empty string) is a parse failure. -/
def pyIntVal (s : String) : Option Int :=
  let cs := ((s.data.dropWhile Char.isWhitespace).reverse.dropWhile
    Char.isWhitespace).reverse
  match cs with
  | '-' :: rest => (natOfDigits rest).map fun v => -(v : Int)
  | '+' :: rest => (natOfDigits rest).map fun v => (v : Int)
  | rest => (natOfDigits rest).map fun v => (v : Int)

/-- Python `int(s)`: the parsed value, or a raised `ValueError`. -/
def pyInt (s : String) : Except PyErr Int :=
  match pyIntVal s with
  | some i => .ok i
  | none => .error .valueError

/-- Python dict with string keys, modelled as an insertion-ordered association
list: at most one binding per key (all writes go through `dictSet`). -/
abbrev Dict (α : Type) := List (String × α)

/-- `d[key]` lookup, returning `none` when the key is absent (`key in d`
tests are `(dictGet? d key).isSome`). -/
def dictGet? {α : Type} : Dict α → String → Option α
  | [], _ => none
  | (k, v) :: rest, key => if k = key then some v else dictGet? rest key

/-- `d[key] = val`: replaces the binding in place when the key is present
(keeping its position, as Python dicts do), appends it otherwise. -/
def dictSet {α : Type} : Dict α → String → α → Dict α
  | [], key, val => [(key, val)]
  | (k, v) :: rest, key, val =>
      if k = key then (k, val) :: rest else (k, v) :: dictSet rest key val

/-- A libcloud location (datacenter): `id` is the string form of an integer. -/
structure Location where
  id : String
  name : String
  country : String
deriving DecidableEq

/-- The `extra` map of a libcloud Gandi node, as read by the script.  `farm`
is an `Option`: `none` models the `'farm'` key being absent from `extra`, in
which case `node.extra['farm']` raises `KeyError`.  The remaining keys are
always set by the driver and are modelled as plain fields. -/
structure NodeExtra where
  ai_active : Bool
  datacenter_id : Int
  description : String
  farm : Option String
  memory : Nat
  ifaces : List Int
  disks : List Int
  cores : Nat
deriving DecidableEq

/-- A libcloud node.  `id` is a string that the script passes through
`int(...)`. -/
structure Node where
  id : String
  name : String
  state : String
  public_ips : List String
  private_ips : List String
  extra : NodeExtra
deriving DecidableEq

/-- An interface as returned by `driver.ex_list_interfaces()`: `vlan` models
`iface.extra['vlan']`, `none` meaning the key is absent (`'vlan' in
iface.extra` is false). -/
structure Iface where
  id : Int
  node_id : Int
  vlan : Option String
  bandwidth : Option Int
deriving DecidableEq

/-- A VLAN record as returned by `driver.ex_list_vlans()`. -/
structure Vlan where
  id : String
  name : String
  subnet : Option String
  gateway : Option String
deriving DecidableEq

/-- The per-host fact dictionary built by `node_metadata_to_dict`. -/
structure HostMeta where
  node_id : String
  state : String
  ansible_ssh_host : String
  ansible_ssh_user : String
  public_ips : List String
  private_ips : List String
  ai_active : Bool
  datacenter_id : Int
  description : String
  farm : String
  memory : Nat
  ifaces : List Int
  disks : List Int
  cores : Nat
deriving DecidableEq

/-- The `meta = {'hostvars': {}}` accumulator. -/
structure Meta where
  hostvars : Dict HostMeta
deriving DecidableEq

/-- The `vars` dict of a group: either `loc_to_dict` output
(`{'datacenter_id': ..., 'country': ...}`) or `vlan_to_dict` output
(`{'vlan_id': ..., 'subnet': ..., 'gateway': ...}`). -/
inductive Vars where
  | dc (datacenter_id : String) (country : String)
  | vlan (vlan_id : String) (subnet : Option String) (gateway : Option String)
deriving DecidableEq

/-- A value of the `groups` dict: farm groups are bare lists of host names
(`plain`), datacenter and VLAN groups are `{'hosts': [...], 'vars': {...}}`
dicts (`varG`), and the `"_meta"` key holds the meta map (`metaG`). -/
inductive GroupVal where
  | plain (hosts : List String)
  | varG (hosts : List String) (vars : Vars)
  | metaG (meta : Meta)
deriving DecidableEq

abbrev Groups := Dict GroupVal

/-- `loc_to_dict` (gandi.py lines 95-100). -/
def loc_to_dict (location : Location) : Vars :=
  .dc location.id location.country

/-- `vlan_to_dict` (gandi.py lines 121-127). -/
def vlan_to_dict (vlan : Vlan) : Vars :=
  .vlan vlan.id vlan.subnet vlan.gateway

/-- `node_metadata_to_dict` (gandi.py lines 102-119): `node.public_ips[0]`
raises `IndexError` on an empty list, `node.extra['farm']` raises `KeyError`
when the key is absent. -/
def node_metadata_to_dict (node : Node) : Except PyErr HostMeta := do
  let ssh_host ← match node.public_ips with
    | [] => Except.error .indexError
    | ip :: _ => Except.ok ip
  let farm ← match node.extra.farm with
    | some f => Except.ok f
    | none => Except.error .keyError
  Except.ok
    { node_id := node.id
      state := node.state
      ansible_ssh_host := ssh_host
      ansible_ssh_user := "root"
      public_ips := node.public_ips
      private_ips := node.private_ips
      ai_active := node.extra.ai_active
      datacenter_id := node.extra.datacenter_id
      description := node.extra.description
      farm := farm
      memory := node.extra.memory
      ifaces := node.extra.ifaces
      disks := node.extra.disks
      cores := node.extra.cores }

/-- Python `next(x for x in xs if p x)`: scans left to right, returns the
first element on which the predicate holds, propagates an error raised by the
predicate, and raises `StopIteration` when the iterator is exhausted. -/
def pyNext {α : Type} (p : α → Except PyErr Bool) : List α → Except PyErr α
  | [] => .error .stopIteration
  | x :: xs => do
      if (← p x) then .ok x else pyNext p xs

/-- The datacenter resolution of gandi.py lines 143-144:
`next(loc for loc in locations if int(loc.id) == node.extra['datacenter_id'])`.
`int(loc.id)` can raise `ValueError` mid-scan. -/
def findLocation (locations : List Location) (node : Node) : Except PyErr Location :=
  pyNext
    (fun loc => do
      let i ← pyInt loc.id
      Except.ok (decide (i = node.extra.datacenter_id)))
    locations

/-- The list comprehension of gandi.py lines 145-146:
`[iface.extra['vlan'] for iface in ifaces if
  ('vlan' in iface.extra) & (int(node.id) == iface.node_id)]`.
The operands of `&` are both evaluated, so `int(node.id)` runs for every
interface and can raise `ValueError` whenever `ifaces` is non-empty. -/
def nodeVlans (node : Node) : List Iface → Except PyErr (List String)
  | [] => .ok []
  | iface :: rest => do
      let nid ← pyInt node.id
      let tl ← nodeVlans node rest
      match iface.vlan with
      | some v => Except.ok (if nid = iface.node_id then v :: tl else tl)
      | none => Except.ok tl

/-- gandi.py lines 150-153: `groups[farm].append(name)` when the key exists
(an `AttributeError` if the existing value is a dict), else
`groups[farm] = [name]`. -/
def appendFarm (groups : Groups) (farm name : String) : Except PyErr Groups :=
  match dictGet? groups farm with
  | none => .ok (dictSet groups farm (.plain [name]))
  | some (.plain hs) => .ok (dictSet groups farm (.plain (hs ++ [name])))
  | some _ => .error .typeError

/-- gandi.py lines 155-160: create the datacenter group with
`loc_to_dict` vars on first sight, else `groups[location.name]['hosts']
.append(name)` (a `TypeError` if the existing value is a bare list). -/
def appendDatacenter (groups : Groups) (location : Location) (name : String) :
    Except PyErr Groups :=
  match dictGet? groups location.name with
  | none => .ok (dictSet groups location.name (.varG [name] (loc_to_dict location)))
  | some (.varG hs vs) => .ok (dictSet groups location.name (.varG (hs ++ [name]) vs))
  | some _ => .error .typeError

/-- gandi.py lines 162-169: resolve the VLAN record first
(`next(x for x in vlans if vlan == x.name)`, raising `StopIteration` when the
name is unknown, even when the group already exists), then create the group
with `vlan_to_dict` vars or append to it. -/
def appendVlan (vlans : List Vlan) (name : String) (groups : Groups)
    (vlanName : String) : Except PyErr Groups := do
  let vlan_info ← pyNext (fun x => Except.ok (decide (vlanName = x.name))) vlans
  match dictGet? groups vlanName with
  | none => Except.ok (dictSet groups vlanName (.varG [name] (vlan_to_dict vlan_info)))
  | some (.varG hs vs) => Except.ok (dictSet groups vlanName (.varG (hs ++ [name]) vs))
  | some _ => Except.error .typeError

/-- The body of the `for node in nodes` loop of `group_nodes`
(gandi.py lines 139-169), in source order: farm extraction, datacenter
resolution, VLAN-name collection, per-host facts, then the three group
updates. -/
def processNode (locations : List Location) (ifaces : List Iface)
    (vlans : List Vlan) (acc : Groups × Meta) (node : Node) :
    Except PyErr (Groups × Meta) := do
  let name := node.name
  let farm ← match node.extra.farm with
    | some f => Except.ok f
    | none => Except.error .keyError
  let location ← findLocation locations node
  let node_vlans ← nodeVlans node ifaces
  let hostMeta ← node_metadata_to_dict node
  let meta : Meta := { hostvars := dictSet acc.2.hostvars name hostMeta }
  let groups ← appendFarm acc.1 farm name
  let groups ← appendDatacenter groups location name
  let groups ← List.foldlM (appendVlan vlans name) groups node_vlans
  Except.ok (groups, meta)

/-- `GandiInventory.group_nodes` (gandi.py lines 129-172), over a snapshot of
the four list calls.  Returns the groups dict with the meta map stored under
`"_meta"`; an uncaught exception aborts the whole aggregation and no partial
result is produced. -/
def group_nodes (nodes : List Node) (locations : List Location)
    (ifaces : List Iface) (vlans : List Vlan) : Except PyErr Groups := do
  let acc ← List.foldlM (processNode locations ifaces vlans)
    ([], { hostvars := [] }) nodes
  Except.ok (dictSet acc.1 "_meta" (.metaG acc.2))

/-- The `--host` path of `GandiInventory.__init__` (gandi.py lines 85-88):
`self.inventory['_meta']['hostvars'][self.args.host]`.  A missing host name
raises `KeyError` (Python's `LookupError`-class not-found condition); on the
dict shapes `group_nodes` can actually store under `"_meta"`, a `varG` dict
would make `['hostvars']` a `KeyError` and a bare list would make it a
`TypeError`. -/
def hostLookup (inventory : Groups) (host : String) : Except PyErr HostMeta := do
  let mv ← match dictGet? inventory "_meta" with
    | some v => Except.ok v
    | none => Except.error .keyError
  match mv with
  | .metaG m =>
      match dictGet? m.hostvars host with
      | some hm => Except.ok hm
      | none => Except.error .keyError
  | .varG _ _ => Except.error .keyError
  | .plain _ => Except.error .typeError

/-- A private VLAN record as returned by `driver.ex_list_pvlans()`
(gandi_vlan.py).  `datacenter_id` models `pvlan.extra.get('datacenter_id')`,
which returns `None` when absent. -/
structure Pvlan where
  name : String
  subnet : Option String
  gateway : Option String
  datacenter_id : Option Int
deriving DecidableEq

/-- The dictionary built by `get_pvlan_info`. -/
structure PvlanInfo where
  name : String
  subnet : Option String
  gateway : Option String
  datacenter_id : Option Int
deriving DecidableEq

/-- The Python idiom `not x is None and x or None` used in `get_pvlan_info`
(gandi_vlan.py lines 101-102): `None` stays `None`, and a falsy value — the
empty string — also collapses to `None` through the `and`/`or` chain. -/
def truthyOrNone (x : Option String) : Option String :=
  match x with
  | some s => if s = "" then none else some s
  | none => none

/-- `_get_by_name` (gandi_vlan.py lines 119-121, duplicated in
gandi_iface.py):
`find = [x for x in entities if x.name == name]; return find[0] if find else
None` — the first record whose name matches, `None` when there is none.
`nameOf` abstracts the `.name` attribute of the record type. -/
def get_by_name {α : Type} (nameOf : α → String) (name : String)
    (entities : List α) : Option α :=
  match entities.filter (fun x => nameOf x = name) with
  | [] => none
  | x :: _ => some x

/-- `_get_by_id` (gandi_iface.py lines 118-120). -/
def get_by_id {α : Type} (idOf : α → Int) (id : Int)
    (entities : List α) : Option α :=
  match entities.filter (fun x => idOf x = id) with
  | [] => none
  | x :: _ => some x

/-- `get_pvlan_info` (gandi_vlan.py lines 93-104). -/
def get_pvlan_info (pvlan : Pvlan) : PvlanInfo :=
  { name := pvlan.name
    subnet := truthyOrNone pvlan.subnet
    gateway := truthyOrNone pvlan.gateway
    datacenter_id := pvlan.datacenter_id }

/-- The module parameters read by `create_pvlan`. -/
structure VlanParams where
  name : String
  subnet : Option String
  gateway : Option String
  datacenter : String
deriving DecidableEq

/-- `create_pvlan` (gandi_vlan.py lines 131-169).  `locations` and `pvlans`
are the snapshots behind `get_datacenter` and `get_pvlan`; `createOutcome` is
what `driver.ex_create_pvlan` would return if it were invoked (`.error ()`
standing for a `GandiException`, which the source turns into `fail_json`).
The create call is issued only when no existing pvlan bears the requested
name; `changed` is `True` exactly when the call was issued and succeeded. -/
def create_pvlan (params : VlanParams) (locations : List Location)
    (pvlans : List Pvlan) (createOutcome : Except Unit Pvlan) :
    Except PyErr (Bool × PvlanInfo × String) :=
  match get_by_name Location.name params.datacenter locations with
  | none => .error (.fail_json ("Invalid datacenter " ++ params.datacenter))
  | some _ =>
      match get_by_name Pvlan.name params.name pvlans with
      | some pvlan => .ok (false, get_pvlan_info pvlan, params.name)
      | none =>
          match createOutcome with
          | .ok pvlan => .ok (true, get_pvlan_info pvlan, params.name)
          | .error _ =>
              .error (.fail_json
                ("Unexpected error attempting to create pvlan " ++ params.name))

/-- `delete_pvlan` (gandi_vlan.py lines 172-194): deletes the first pvlan
matching the name when one exists. -/
def delete_pvlan (pvlans : List Pvlan) (pvlan_name : String) : Bool × String :=
  match get_by_name Pvlan.name pvlan_name pvlans with
  | some _ => (true, pvlan_name)
  | none => (false, pvlan_name)

/-- An interface object as returned by `driver.ex_list_ifaces()`
(gandi_iface.py): `vlan` is the attached VLAN object or `None`. -/
structure IfaceObj where
  id : Int
  vlan : Option Vlan
  bandwidth : Option Int
  datacenter_id : Option Int
deriving DecidableEq

/-- The dictionary built by `get_iface_info` (gandi_iface.py lines 140-149);
`'vlan'` uses the same `not x is None and x or None` idiom on
`iface.vlan.name`. -/
structure IfaceInfo where
  vlan : Option String
  bandwidth : Option Int
  datacenter_id : Option Int
deriving DecidableEq

def get_iface_info (iface : IfaceObj) : IfaceInfo :=
  { vlan := truthyOrNone (iface.vlan.map Vlan.name)
    bandwidth := iface.bandwidth
    datacenter_id := iface.datacenter_id }

/-- The module parameters of gandi_iface.py `main` (lines 226-244). -/
structure IfaceParams where
  state : String
  datacenter : String
  ip_version : Option String
  ip_address : Option String
  vlan : Option String
  bandwidth : Option Int
deriving DecidableEq

/-- Python truthiness of an optional string parameter: `None` and the empty
string are falsy. -/
def pyTruthy (x : Option String) : Bool :=
  match x with
  | some s => s ≠ ""
  | none => false

/-- `delete_iface` (gandi_iface.py lines 201-223): looks the interface up by
id and issues `ex_delete_iface` when found; `changed` records whether the
delete call happened. -/
def delete_iface (ifaces : List IfaceObj) (iface_id : Int) : Bool × Int :=
  match get_by_id IfaceObj.id iface_id ifaces with
  | some _ => (true, iface_id)
  | none => (false, iface_id)

/-- `create_iface` (gandi_iface.py lines 152-198).  `get_pvlan` is called on
`module.params.get('vlan')`, which may be `None` (no record has a `None`
name, so the lookup yields `None`); `createOutcome` is what
`driver.ex_create_iface` would return if invoked. -/
def create_iface (params : IfaceParams) (locations : List Location)
    (pvlans : List Pvlan) (createOutcome : Except Unit IfaceObj) :
    Except PyErr (Bool × IfaceInfo) :=
  match get_by_name Location.name params.datacenter locations with
  | none => .error (.fail_json ("Invalid datacenter " ++ params.datacenter))
  | some _ =>
      let pvlan := match params.vlan with
        | some v => get_by_name Pvlan.name v pvlans
        | none => none
      if pvlan.isNone ∧ ¬ pyTruthy params.ip_version then
        .error (.fail_json "ip_version is mandatory when not a vlan")
      else
        match createOutcome with
        | .ok iface => .ok (true, get_iface_info iface)
        | .error _ =>
            .error (.fail_json "Unexpected error attempting to create iface")

/-- The result record (`json_output`) of gandi_iface.py `main`. -/
inductive IfaceOut where
  | deletedOut (changed : Bool) (iface_id : Int)
  | createdOut (changed : Bool) (info : IfaceInfo)
  | noopOut
deriving DecidableEq

/-- The local variable `iface_id` of gandi_iface.py `main` at the point of
line 261: no statement of `main` before
`(changed, iface_id) = delete_iface(module, gandi, iface_id)` assigns it, and
the right-hand side of that statement is evaluated first, so the read is of
an unassigned local.  Unassigned locals are modelled as `none`. -/
def iface_id_local : Option Int := none

/-- The `state`-dispatch of gandi_iface.py `main` (lines 254-272), after
argument parsing and driver construction.  Reading the unassigned local
`iface_id` raises `UnboundLocalError` (a `NameError`), modelled by
`iface_id_local` being `none`; `delete_iface` is only reached on a bound
value.  The argument spec restricts `state` to `created`/`deleted`; any other
value falls through both branches and returns only the `changed = False`
skeleton. -/
def gandi_iface_main (params : IfaceParams) (locations : List Location)
    (pvlans : List Pvlan) (ifaces : List IfaceObj)
    (createOutcome : Except Unit IfaceObj) : Except PyErr IfaceOut :=
  if params.datacenter = "" ∧ params.state = "created" then
    .error (.fail_json "Must specify a \"datacenter\"")
  else if params.state = "deleted" then
    match iface_id_local with
    | none => .error .nameError
    | some iid =>
        let r := delete_iface ifaces iid
        .ok (.deletedOut r.1 r.2)
  else if params.state = "created" then
    match create_iface params locations pvlans createOutcome with
    | .ok (changed, info) => .ok (.createdOut changed info)
    | .error e => .error e
  else
    .ok .noopOut

/-! ### Claim-support definitions -/

/-- `int(s)` succeeds, i.e. `pyInt s` returns a value. -/
def parsesInt (s : String) : Bool :=
  (pyIntVal s).isSome

/-- `int(loc.id) == d` evaluates without error and is true: the match
condition of the datacenter scan (gandi.py line 144), in the decidable
`Option` form (`pyInt loc.id = .ok d` is proved equivalent below). -/
def locMatches (loc : Location) (d : Int) : Prop :=
  pyIntVal loc.id = some d

instance (loc : Location) (d : Int) : Decidable (locMatches loc d) := by
  unfold locMatches; infer_instance

/-- The hosts list stored in a groups-dict value (`metaG` holds none). -/
def hostsOf : GroupVal → List String
  | .plain hs => hs
  | .varG hs _ => hs
  | .metaG _ => []

/-- How many times `x` occurs in the hosts list of group `k`. -/
def hostCount (gs : Groups) (k x : String) : Nat :=
  match dictGet? gs k with
  | some v => (hostsOf v).count x
  | none => 0

/-- How one or more successful group-updating steps can change the binding
at key `k`: hosts/vars groups and bare-list groups only have names appended
(names satisfying `P` — for a single node's step, names equal to that node's
name), a meta binding is untouched, and an absent binding stays absent or is
created with member names satisfying `P`. -/
def StepChar (P : String → Prop) (gs gs' : Groups) (k : String) : Prop :=
  (∀ hs vs, dictGet? gs k = some (.varG hs vs) →
     ∃ tail, dictGet? gs' k = some (.varG (hs ++ tail) vs) ∧
       ∀ y ∈ tail, P y) ∧
  (∀ hs, dictGet? gs k = some (.plain hs) →
     ∃ tail, dictGet? gs' k = some (.plain (hs ++ tail)) ∧ ∀ y ∈ tail, P y) ∧
  (∀ mm, dictGet? gs k = some (.metaG mm) →
     dictGet? gs' k = some (.metaG mm)) ∧
  (dictGet? gs k = none →
     dictGet? gs' k = none ∨
     ∃ val, dictGet? gs' k = some val ∧ ∀ y ∈ hostsOf val, P y)

/-- Shape invariant of the groups dict while well-formed nodes are folded:
bare-list bindings come from some processed node's farm label, hosts/vars
bindings with datacenter vars sit under a location's name with `loc_to_dict`
vars and hold exactly names of processed nodes resolving to that location,
hosts/vars bindings with VLAN vars sit under a VLAN record's name, and no
binding holds a meta map. -/
def ShapeCore (locations : List Location) (vlans : List Vlan)
    (done : List Node) (gs : Groups) : Prop :=
  (∀ k hs, dictGet? gs k = some (.plain hs) →
    ∃ nn ∈ done, nn.extra.farm = some k) ∧
  (∀ k hs a b, dictGet? gs k = some (.varG hs (.dc a b)) →
    ∃ l ∈ locations, k = l.name ∧ Vars.dc a b = loc_to_dict l ∧
      ∀ x ∈ hs, ∃ nn ∈ done, nn.name = x ∧
        findLocation locations nn = .ok l) ∧
  (∀ k hs a b c, dictGet? gs k = some (.varG hs (.vlan a b c)) →
    ∃ vl ∈ vlans, k = vl.name) ∧
  (∀ k mm, dictGet? gs k ≠ some (.metaG mm))

/-- Every processed node's name is recorded in the datacenter group of its
resolved location, with `loc_to_dict` vars. -/
def DcMembers (locations : List Location) (done : List Node)
    (gs : Groups) : Prop :=
  ∀ nn ∈ done, ∃ l hs, findLocation locations nn = .ok l ∧
    dictGet? gs l.name = some (.varG hs (loc_to_dict l)) ∧ nn.name ∈ hs

/-- Static well-formedness of the reference data: every location id parses
as an integer, location names are unambiguous, VLAN names collide with no
location name, and no location usurps the reserved `"_meta"` key. -/
def GoodStatic (locations : List Location) (vlans : List Vlan) : Prop :=
  (∀ loc ∈ locations, parsesInt loc.id = true) ∧
  (∀ l ∈ locations, ∀ l' ∈ locations, l.name = l'.name → l = l') ∧
  (∀ vl ∈ vlans, ∀ l ∈ locations, vl.name ≠ l.name) ∧
  (∀ l ∈ locations, l.name ≠ "_meta")

/-- Per-node well-formedness: the farm key is present and collides with no
location or VLAN name, the public-IP list is non-empty, the node id parses,
the datacenter matches exactly one location, and every VLAN name carried by
one of the node's interfaces resolves to a VLAN record. -/
def GoodNode (locations : List Location) (ifaces : List Iface)
    (vlans : List Vlan) (n : Node) : Prop :=
  n.extra.farm.isSome = true ∧
  (∀ loc ∈ locations, n.extra.farm ≠ some loc.name) ∧
  (∀ vl ∈ vlans, n.extra.farm ≠ some vl.name) ∧
  n.public_ips ≠ [] ∧
  parsesInt n.id = true ∧
  (∃ loc ∈ locations, locMatches loc n.extra.datacenter_id) ∧
  (∀ loc ∈ locations, ∀ loc' ∈ locations, locMatches loc n.extra.datacenter_id →
      locMatches loc' n.extra.datacenter_id → loc = loc') ∧
  (∀ ifc ∈ ifaces, pyIntVal n.id = some ifc.node_id → ifc.vlan ≠ none →
      ∃ vl ∈ vlans, some vl.name = ifc.vlan)

/-- Well-formedness of a whole snapshot, as needed for the aggregation to
succeed and place every node in an unambiguous datacenter group: static
well-formedness, pairwise-distinct node names, and per-node
well-formedness. -/
def WellFormedInput (nodes : List Node) (locations : List Location)
    (ifaces : List Iface) (vlans : List Vlan) : Prop :=
  GoodStatic locations vlans ∧
  (nodes.map Node.name).Nodup ∧
  ∀ n ∈ nodes, GoodNode locations ifaces vlans n

instance (locations : List Location) (vlans : List Vlan) :
    Decidable (GoodStatic locations vlans) := by
  unfold GoodStatic; infer_instance

instance (locations : List Location) (ifaces : List Iface)
    (vlans : List Vlan) (n : Node) :
    Decidable (GoodNode locations ifaces vlans n) := by
  unfold GoodNode; infer_instance

instance (nodes : List Node) (locations : List Location)
    (ifaces : List Iface) (vlans : List Vlan) :
    Decidable (WellFormedInput nodes locations ifaces vlans) := by
  unfold WellFormedInput; infer_instance

/-! Concrete snapshots used by witnesses and counterexamples. -/

/-- A location whose id parses to `1`. -/
def egLoc : Location := { id := "1", name := "Paris", country := "FR" }

def egExtra : NodeExtra :=
  { ai_active := true, datacenter_id := 1, description := "web server",
    farm := some "f1", memory := 512, ifaces := [7, 8], disks := [3],
    cores := 2 }

/-- A well-formed node living in `egLoc`. -/
def egNode : Node :=
  { id := "100", name := "h1", state := "running",
    public_ips := ["192.0.2.10"], private_ips := ["10.0.0.10"],
    extra := egExtra }

def egVlanDb : Vlan :=
  { id := "11", name := "db", subnet := some "10.0.0.0/24",
    gateway := some "10.0.0.1" }

def egVlanWeb : Vlan :=
  { id := "12", name := "web", subnet := none, gateway := none }

/-- Two interfaces of `egNode`, one on VLAN `"db"`, one on VLAN `"web"`. -/
def egIfaceDb : Iface :=
  { id := 7, node_id := 100, vlan := some "db", bandwidth := some 50000 }

def egIfaceWeb : Iface :=
  { id := 8, node_id := 100, vlan := some "web", bandwidth := none }

/-- An interface of `egNode` carrying a VLAN name matching no VLAN record. -/
def egIfaceGhost : Iface :=
  { id := 9, node_id := 100, vlan := some "ghost", bandwidth := none }

/-- `egNode` with an empty public-IP list (C1 counterexample / C9). -/
def egNodeNoIp : Node :=
  { egNode with public_ips := [] }

/-- `egNode` with an empty-string farm label (C5). -/
def egNodeEmptyFarm : Node :=
  { egNode with extra := { egExtra with farm := some "" } }

/-- `egNode` with the farm key absent from `extra` (C5). -/
def egNodeNoFarm : Node :=
  { egNode with extra := { egExtra with farm := none } }

/-- A second location whose id also parses to `1` (C2 counterexample:
`egNode.extra.datacenter_id` matches both `egLoc` and this one). -/
def egLocDup : Location := { id := "1", name := "ParisBis", country := "FR" }

/-- A node whose datacenter id matches no location in `[egLoc]`. -/
def egNodeLost : Node :=
  { egNode with extra := { egExtra with datacenter_id := 9 } }

/-- The per-host facts of `egNode`, as `node_metadata_to_dict` builds them. -/
def egHM : HostMeta :=
  { node_id := "100", state := "running", ansible_ssh_host := "192.0.2.10",
    ansible_ssh_user := "root", public_ips := ["192.0.2.10"],
    private_ips := ["10.0.0.10"], ai_active := true, datacenter_id := 1,
    description := "web server", farm := "f1", memory := 512,
    ifaces := [7, 8], disks := [3], cores := 2 }

/-- The groups dict produced by `group_nodes` on the snapshot
`([egNode], [egLoc], [egIfaceDb, egIfaceWeb], [egVlanDb, egVlanWeb])`. -/
def egGroupsOut : Groups :=
  [("f1", .plain ["h1"]),
   ("Paris", .varG ["h1"] (.dc "1" "FR")),
   ("db", .varG ["h1"] (.vlan "11" (some "10.0.0.0/24") (some "10.0.0.1"))),
   ("web", .varG ["h1"] (.vlan "12" none none)),
   ("_meta", .metaG { hostvars := [("h1", egHM)] })]

/-- A meta map with the single host `"h1"`, and an inventory holding it. -/
def egMetaMap : Meta := { hostvars := [("h1", egHM)] }

def egInv : Groups := [("_meta", .metaG egMetaMap)]

/-- Module parameters for the gandi_iface `state = deleted` path. -/
def egIfaceParams : IfaceParams :=
  { state := "deleted", datacenter := "Bissen", ip_version := none,
    ip_address := none, vlan := none, bandwidth := none }

/-- An existing private VLAN named `mypvlan` in `egLoc`. -/
def egPvlan : Pvlan :=
  { name := "mypvlan", subnet := some "192.168.0.0/24",
    gateway := some "192.168.0.254", datacenter_id := some 1 }

/-- Module parameters requesting creation of `mypvlan` in `Paris`. -/
def egVlanParams : VlanParams :=
  { name := "mypvlan", subnet := none, gateway := none, datacenter := "Paris" }

/-- The groups dict produced by `group_nodes` on
`([egNode], [egLoc, egLocDup], [], [])`: both locations' ids parse to
`egNode`'s datacenter id, and the scan takes the first (`egLoc`). -/
def egGroupsOutDup : Groups :=
  [("f1", .plain ["h1"]),
   ("Paris", .varG ["h1"] (.dc "1" "FR")),
   ("_meta", .metaG { hostvars := [("h1", egHM)] })]

/-- The per-host facts of `egNodeEmptyFarm`. -/
def egHMEmptyFarm : HostMeta := { egHM with farm := "" }

/-- The groups dict produced by `group_nodes` on
`([egNodeEmptyFarm], [egLoc], [], [])`: the empty farm label creates a farm
group under the key `""`. -/
def egGroupsOutEmptyFarm : Groups :=
  [("", .plain ["h1"]),
   ("Paris", .varG ["h1"] (.dc "1" "FR")),
   ("_meta", .metaG { hostvars := [("h1", egHMEmptyFarm)] })]

/-- `egNode` with the farm label `"db"` — colliding with a VLAN name. -/
def egNodeFarmDb : Node :=
  { egNode with extra := { egExtra with farm := some "db" } }

/-! ### Basic lemmas: dicts, `Except`, folds, `pyNext` -/

theorem dictGet_dictSet_self {α : Type} (d : Dict α) (k : String) (v : α) :
    dictGet? (dictSet d k v) k = some v := by
  induction d with
  | nil => simp [dictSet, dictGet?]
  | cons p rest ih =>
    obtain ⟨k', v'⟩ := p
    by_cases h : k' = k
    · subst h; simp [dictSet, dictGet?]
    · simp [dictSet, dictGet?, h, ih]

theorem dictGet_dictSet_ne {α : Type} (d : Dict α) {k k' : String} (v : α)
    (h : k ≠ k') : dictGet? (dictSet d k v) k' = dictGet? d k' := by
  induction d with
  | nil => simp [dictSet, dictGet?, h]
  | cons p rest ih =>
    obtain ⟨k₀, v₀⟩ := p
    by_cases h0 : k₀ = k
    · subst h0; simp [dictSet, dictGet?, h]
    · simp only [dictSet, if_neg h0, dictGet?]
      by_cases h1 : k₀ = k'
      · simp [h1]
      · simp [h1, ih]

@[simp] theorem pyBind_error {α β : Type} (e : PyErr) (f : α → Except PyErr β) :
    (Except.error e : Except PyErr α) >>= f = .error e := rfl

@[simp] theorem pyBind_ok {α β : Type} (a : α) (f : α → Except PyErr β) :
    (Except.ok a : Except PyErr α) >>= f = f a := rfl

theorem ebind_ok_iff {α β : Type} {p : Except PyErr α} {f : α → Except PyErr β}
    {b : β} : p >>= f = .ok b ↔ ∃ a, p = .ok a ∧ f a = .ok b := by
  cases p with
  | ok a => simp
  | error e => simp

@[simp] theorem pyPure_eq_ok {β : Type} (b : β) :
    (pure b : Except PyErr β) = .ok b := rfl

theorem pyFoldlM_nil {α β : Type} (f : β → α → Except PyErr β) (b : β) :
    List.foldlM f b [] = .ok b := rfl

theorem pyFoldlM_cons {α β : Type} (f : β → α → Except PyErr β) (b : β)
    (x : α) (l : List α) :
    List.foldlM f b (x :: l) = f b x >>= fun b' => List.foldlM f b' l := rfl

theorem pyFoldlM_append_ok {α β : Type} (f : β → α → Except PyErr β)
    (l1 l2 : List α) (b : β) (c : β) :
    List.foldlM f b (l1 ++ l2) = .ok c ↔
      ∃ b1, List.foldlM f b l1 = .ok b1 ∧ List.foldlM f b1 l2 = .ok c := by
  induction l1 generalizing b with
  | nil => simp [pyFoldlM_nil]
  | cons x xs ih =>
    rw [List.cons_append, pyFoldlM_cons, pyFoldlM_cons, ebind_ok_iff]
    constructor
    · rintro ⟨a, ha, h2⟩
      obtain ⟨b1, hb1, hb2⟩ := (ih a).mp h2
      exact ⟨b1, ebind_ok_iff.mpr ⟨a, ha, hb1⟩, hb2⟩
    · rintro ⟨b1, h1, h2⟩
      obtain ⟨a, ha, hb1⟩ := ebind_ok_iff.mp h1
      exact ⟨a, ha, (ih a).mpr ⟨b1, hb1, h2⟩⟩

theorem pyFoldlM_error_of_mem {α β : Type} (f : β → α → Except PyErr β)
    {x : α} {l : List α} (hx : x ∈ l)
    (hf : ∀ b, ∃ e, f b x = .error e) (b : β) :
    ∃ e, List.foldlM f b l = .error e := by
  induction l generalizing b with
  | nil => cases hx
  | cons y ys ih =>
    rcases List.mem_cons.mp hx with h | h
    · subst h
      obtain ⟨e, he⟩ := hf b
      exact ⟨e, by rw [pyFoldlM_cons, he, pyBind_error]⟩
    · cases hy : f b y with
      | error e => exact ⟨e, by rw [pyFoldlM_cons, hy, pyBind_error]⟩
      | ok b' =>
        obtain ⟨e, he⟩ := ih h b'
        exact ⟨e, by rw [pyFoldlM_cons, hy, pyBind_ok]; exact he⟩

theorem pyNext_error_of_all_false {α : Type} {p : α → Except PyErr Bool}
    {l : List α} (h : ∀ x ∈ l, p x = .ok false) :
    pyNext p l = .error .stopIteration := by
  induction l with
  | nil => rfl
  | cons x xs ih =>
    have hx := h x (List.mem_cons_self x xs)
    have hxs := ih fun y hy => h y (List.mem_cons_of_mem x hy)
    simp [pyNext, hx, hxs]

theorem pyNext_ok_first {α : Type} {p : α → Except PyErr Bool} {l : List α}
    (hall : ∀ x ∈ l, ∃ b, p x = .ok b) (hex : ∃ x ∈ l, p x = .ok true) :
    ∃ x, pyNext p l = .ok x ∧ x ∈ l ∧ p x = .ok true := by
  induction l with
  | nil => obtain ⟨x, hx, _⟩ := hex; cases hx
  | cons y ys ih =>
    obtain ⟨b, hb⟩ := hall y (List.mem_cons_self y ys)
    cases b with
    | true => exact ⟨y, by simp [pyNext, hb], List.mem_cons_self y ys, hb⟩
    | false =>
      have hex' : ∃ x ∈ ys, p x = .ok true := by
        obtain ⟨x, hx, hpx⟩ := hex
        rcases List.mem_cons.mp hx with h | h
        · subst h; rw [hb] at hpx; cases hpx
        · exact ⟨x, h, hpx⟩
      obtain ⟨x, hx1, hx2, hx3⟩ :=
        ih (fun z hz => hall z (List.mem_cons_of_mem y hz)) hex'
      exact ⟨x, by simp [pyNext, hb, hx1], List.mem_cons_of_mem y hx2, hx3⟩

/-! ### Structural lemmas about the aggregation steps -/

theorem pyInt_ok_iff {s : String} {i : Int} :
    pyInt s = .ok i ↔ pyIntVal s = some i := by
  unfold pyInt
  cases h : pyIntVal s <;> simp

theorem parsesInt_iff {s : String} :
    parsesInt s = true ↔ ∃ i, pyInt s = .ok i := by
  unfold parsesInt pyInt
  cases h : pyIntVal s <;> simp

theorem findLocation_cons (l : Location) (ls : List Location) (n : Node) :
    findLocation (l :: ls) n =
      (pyInt l.id >>= fun i => Except.ok (decide (i = n.extra.datacenter_id)))
        >>= fun b => if b then .ok l else findLocation ls n := rfl

theorem pyInt_error_of_none {s : String} (h : pyIntVal s = none) :
    pyInt s = .error .valueError := by
  unfold pyInt; rw [h]

theorem findLocation_error_of_no_match {locations : List Location} {n : Node}
    (h : ∀ loc ∈ locations, ¬ locMatches loc n.extra.datacenter_id) :
    ∃ e, findLocation locations n = .error e := by
  induction locations with
  | nil => exact ⟨.stopIteration, rfl⟩
  | cons l ls ih =>
    rw [findLocation_cons]
    cases hp : pyIntVal l.id with
    | none =>
      refine ⟨.valueError, ?_⟩
      rw [pyInt_error_of_none hp, pyBind_error, pyBind_error]
    | some i =>
      have hne : i ≠ n.extra.datacenter_id := by
        intro he
        exact h l (List.mem_cons_self l ls) (by unfold locMatches; rw [hp, he])
      obtain ⟨e, he⟩ := ih fun loc hm => h loc (List.mem_cons_of_mem l hm)
      refine ⟨e, ?_⟩
      rw [pyInt_ok_iff.mpr hp, pyBind_ok, pyBind_ok, decide_eq_false hne,
        if_neg (by simp), he]

theorem findLocation_ok {locations : List Location} {n : Node}
    (hparse : ∀ loc ∈ locations, parsesInt loc.id = true)
    (hex : ∃ loc ∈ locations, locMatches loc n.extra.datacenter_id) :
    ∃ l, findLocation locations n = .ok l ∧ l ∈ locations ∧
      locMatches l n.extra.datacenter_id := by
  induction locations with
  | nil => obtain ⟨l, hl, _⟩ := hex; cases hl
  | cons l ls ih =>
    have hip : (pyIntVal l.id).isSome = true := hparse l (List.mem_cons_self l ls)
    obtain ⟨i, hi⟩ := Option.isSome_iff_exists.mp hip
    by_cases hm : i = n.extra.datacenter_id
    · refine ⟨l, ?_, List.mem_cons_self l ls, by unfold locMatches; rw [hi, hm]⟩
      rw [findLocation_cons, pyInt_ok_iff.mpr hi, pyBind_ok, pyBind_ok,
        decide_eq_true hm, if_pos (by simp)]
    · have hex' : ∃ loc ∈ ls, locMatches loc n.extra.datacenter_id := by
        obtain ⟨loc, hmem, hloc⟩ := hex
        rcases List.mem_cons.mp hmem with hh | hh
        · subst hh
          unfold locMatches at hloc
          rw [hi] at hloc
          exact absurd (Option.some.inj hloc) hm
        · exact ⟨loc, hh, hloc⟩
      obtain ⟨l', h1, h2, h3⟩ :=
        ih (fun loc hmm => hparse loc (List.mem_cons_of_mem l hmm)) hex'
      refine ⟨l', ?_, List.mem_cons_of_mem l h2, h3⟩
      rw [findLocation_cons, pyInt_ok_iff.mpr hi, pyBind_ok, pyBind_ok,
        decide_eq_false hm, if_neg (by simp), h1]

theorem nodeVlans_ok {n : Node} {i : Int} (hid : pyIntVal n.id = some i)
    (ifaces : List Iface) :
    ∃ nv, nodeVlans n ifaces = .ok nv ∧
      ∀ v, v ∈ nv ↔ ∃ ifc ∈ ifaces, ifc.vlan = some v ∧ ifc.node_id = i := by
  induction ifaces with
  | nil => exact ⟨[], rfl, by simp⟩
  | cons ifc rest ih =>
    obtain ⟨nv, hnv, hch⟩ := ih
    cases hv : ifc.vlan with
    | none =>
      refine ⟨nv, ?_, ?_⟩
      · unfold nodeVlans
        simp [pyInt, hid, hnv, hv]
      · intro v
        rw [hch v]
        constructor
        · rintro ⟨c, hc, h1, h2⟩; exact ⟨c, List.mem_cons_of_mem ifc hc, h1, h2⟩
        · rintro ⟨c, hc, h1, h2⟩
          rcases List.mem_cons.mp hc with hh | hh
          · subst hh; rw [hv] at h1; cases h1
          · exact ⟨c, hh, h1, h2⟩
    | some w =>
      by_cases hn : i = ifc.node_id
      · refine ⟨w :: nv, ?_, ?_⟩
        · unfold nodeVlans
          simp [pyInt, hid, hnv, hv, hn]
        · intro v
          rw [List.mem_cons, hch v]
          constructor
          · rintro (rfl | ⟨c, hc, h1, h2⟩)
            · exact ⟨ifc, List.mem_cons_self ifc rest, hv, hn.symm⟩
            · exact ⟨c, List.mem_cons_of_mem ifc hc, h1, h2⟩
          · rintro ⟨c, hc, h1, h2⟩
            rcases List.mem_cons.mp hc with hh | hh
            · subst hh; rw [hv] at h1; exact Or.inl (Option.some.inj h1).symm
            · exact Or.inr ⟨c, hh, h1, h2⟩
      · refine ⟨nv, ?_, ?_⟩
        · unfold nodeVlans
          simp [pyInt, hid, hnv, hv, hn]
        · intro v
          rw [hch v]
          constructor
          · rintro ⟨c, hc, h1, h2⟩; exact ⟨c, List.mem_cons_of_mem ifc hc, h1, h2⟩
          · rintro ⟨c, hc, h1, h2⟩
            rcases List.mem_cons.mp hc with hh | hh
            · subst hh; exact absurd h2.symm hn
            · exact ⟨c, hh, h1, h2⟩

theorem processNode_ok_inv {locations : List Location} {ifaces : List Iface}
    {vlans : List Vlan} {gs : Groups} {m : Meta} {n : Node} {gs' : Groups}
    {m' : Meta}
    (h : processNode locations ifaces vlans (gs, m) n = .ok (gs', m')) :
    ∃ f location nv hm gs1 gs2,
      n.extra.farm = some f ∧
      findLocation locations n = .ok location ∧
      nodeVlans n ifaces = .ok nv ∧
      node_metadata_to_dict n = .ok hm ∧
      appendFarm gs f n.name = .ok gs1 ∧
      appendDatacenter gs1 location n.name = .ok gs2 ∧
      List.foldlM (appendVlan vlans n.name) gs2 nv = .ok gs' ∧
      m' = { hostvars := dictSet m.hostvars n.name hm } := by
  unfold processNode at h
  cases hf : n.extra.farm with
  | none => rw [hf] at h; simp at h
  | some f =>
    rw [hf] at h
    simp only [pyBind_ok] at h
    cases hl : findLocation locations n with
    | error e => rw [hl] at h; simp at h
    | ok location =>
      rw [hl] at h
      simp only [pyBind_ok] at h
      cases hnv : nodeVlans n ifaces with
      | error e => rw [hnv] at h; simp at h
      | ok nv =>
        rw [hnv] at h
        simp only [pyBind_ok] at h
        cases hmv : node_metadata_to_dict n with
        | error e => rw [hmv] at h; simp at h
        | ok hm =>
          rw [hmv] at h
          simp only [pyBind_ok] at h
          cases haf : appendFarm gs f n.name with
          | error e => rw [haf] at h; simp at h
          | ok gs1 =>
            rw [haf] at h
            simp only [pyBind_ok] at h
            cases had : appendDatacenter gs1 location n.name with
            | error e => rw [had] at h; simp at h
            | ok gs2 =>
              rw [had] at h
              simp only [pyBind_ok] at h
              cases hfold : List.foldlM (appendVlan vlans n.name) gs2 nv with
              | error e => rw [hfold] at h; simp at h
              | ok gs3 =>
                rw [hfold] at h
                simp only [pyBind_ok] at h
                injection h with h
                injection h with h1 h2
                exact ⟨f, location, nv, hm, gs1, gs2, rfl, rfl, rfl, rfl, haf,
                  had, by rw [← h1]; exact hfold, h2.symm⟩

theorem processNode_ok_build {locations : List Location} {ifaces : List Iface}
    {vlans : List Vlan} {gs : Groups} (m : Meta) {n : Node} {f : String}
    {location : Location} {nv : List String} {hmv : HostMeta}
    {gs1 gs2 gs3 : Groups}
    (hf : n.extra.farm = some f)
    (hl : findLocation locations n = .ok location)
    (hnv : nodeVlans n ifaces = .ok nv)
    (hm : node_metadata_to_dict n = .ok hmv)
    (h1 : appendFarm gs f n.name = .ok gs1)
    (h2 : appendDatacenter gs1 location n.name = .ok gs2)
    (h3 : List.foldlM (appendVlan vlans n.name) gs2 nv = .ok gs3) :
    processNode locations ifaces vlans (gs, m) n =
      .ok (gs3, { hostvars := dictSet m.hostvars n.name hmv }) := by
  unfold processNode
  simp only [hf, pyBind_ok, hl, hnv, hm, h1, h2, h3]

theorem group_nodes_ok_inv {nodes : List Node} {locations : List Location}
    {ifaces : List Iface} {vlans : List Vlan} {gs : Groups}
    (h : group_nodes nodes locations ifaces vlans = .ok gs) :
    ∃ gsF m,
      List.foldlM (processNode locations ifaces vlans)
        ([], { hostvars := [] }) nodes = .ok (gsF, m) ∧
      gs = dictSet gsF "_meta" (.metaG m) := by
  unfold group_nodes at h
  cases hacc : List.foldlM (processNode locations ifaces vlans)
      ([], { hostvars := [] }) nodes with
  | error e => rw [hacc] at h; simp at h
  | ok acc =>
    rw [hacc] at h
    simp only [pyBind_ok] at h
    exact ⟨acc.1, acc.2, rfl, (Except.ok.inj h).symm⟩

theorem group_nodes_ok_build {nodes : List Node} {locations : List Location}
    {ifaces : List Iface} {vlans : List Vlan} {gsF : Groups} {m : Meta}
    (h : List.foldlM (processNode locations ifaces vlans)
      ([], { hostvars := [] }) nodes = .ok (gsF, m)) :
    group_nodes nodes locations ifaces vlans =
      .ok (dictSet gsF "_meta" (.metaG m)) := by
  unfold group_nodes
  rw [h, pyBind_ok]

theorem processNode_error_of_farm_none {locations : List Location}
    {ifaces : List Iface} {vlans : List Vlan} {n : Node}
    (h : n.extra.farm = none) (acc : Groups × Meta) :
    processNode locations ifaces vlans acc n = .error .keyError := by
  unfold processNode
  simp only [h, pyBind_error]

theorem processNode_error_of_location {locations : List Location}
    {ifaces : List Iface} {vlans : List Vlan} {n : Node}
    (h : ∀ loc ∈ locations, ¬ locMatches loc n.extra.datacenter_id)
    (acc : Groups × Meta) :
    ∃ e, processNode locations ifaces vlans acc n = .error e := by
  cases hf : n.extra.farm with
  | none => exact ⟨.keyError, processNode_error_of_farm_none hf acc⟩
  | some f =>
    obtain ⟨e, he⟩ := findLocation_error_of_no_match h
    refine ⟨e, ?_⟩
    unfold processNode
    simp only [hf, pyBind_ok, he, pyBind_error]

theorem group_nodes_error_of_mem {nodes : List Node}
    {locations : List Location} {ifaces : List Iface} {vlans : List Vlan}
    {n : Node} (hn : n ∈ nodes)
    (hbad : ∀ acc, ∃ e, processNode locations ifaces vlans acc n = .error e) :
    ∃ e, group_nodes nodes locations ifaces vlans = .error e := by
  obtain ⟨e, he⟩ :=
    pyFoldlM_error_of_mem (processNode locations ifaces vlans) hn hbad
      ([], { hostvars := [] })
  refine ⟨e, ?_⟩
  unfold group_nodes
  rw [he, pyBind_error]

theorem appendVlan_error_of_no_record {vlans : List Vlan} {v : String}
    (h : ∀ vl ∈ vlans, vl.name ≠ v) (name : String) (gs : Groups) :
    appendVlan vlans name gs v = .error .stopIteration := by
  have hnx : pyNext (fun x => Except.ok (decide (v = x.name))) vlans =
      .error .stopIteration :=
    pyNext_error_of_all_false fun x hx => by
      rw [decide_eq_false fun hh => (h x hx) hh.symm]
  unfold appendVlan
  rw [hnx, pyBind_error]

theorem processNode_error_of_ghost_vlan {locations : List Location}
    {ifaces : List Iface} {vlans : List Vlan} {n : Node} {ifc : Iface}
    {v : String}
    (hifc : ifc ∈ ifaces) (hvl : ifc.vlan = some v)
    (hid : pyIntVal n.id = some ifc.node_id)
    (hmiss : ∀ vl ∈ vlans, vl.name ≠ v)
    (acc : Groups × Meta) :
    ∃ e, processNode locations ifaces vlans acc n = .error e := by
  cases hf : n.extra.farm with
  | none => exact ⟨.keyError, processNode_error_of_farm_none hf acc⟩
  | some f =>
    cases hl : findLocation locations n with
    | error e =>
      refine ⟨e, ?_⟩
      unfold processNode
      simp only [hf, pyBind_ok, hl, pyBind_error]
    | ok location =>
      obtain ⟨nv, hnv, hch⟩ := nodeVlans_ok hid ifaces
      have hvmem : v ∈ nv := (hch v).mpr ⟨ifc, hifc, hvl, rfl⟩
      cases hmv : node_metadata_to_dict n with
      | error e =>
        refine ⟨e, ?_⟩
        unfold processNode
        simp only [hf, pyBind_ok, hl, hnv, hmv, pyBind_error]
      | ok hm =>
        cases haf : appendFarm acc.1 f n.name with
        | error e =>
          refine ⟨e, ?_⟩
          unfold processNode
          simp only [hf, pyBind_ok, hl, hnv, hmv, haf, pyBind_error]
        | ok gs1 =>
          cases had : appendDatacenter gs1 location n.name with
          | error e =>
            refine ⟨e, ?_⟩
            unfold processNode
            simp only [hf, pyBind_ok, hl, hnv, hmv, haf, had, pyBind_error]
          | ok gs2 =>
            have hbad : ∀ b, ∃ e, appendVlan vlans n.name b v = .error e :=
              fun b => ⟨.stopIteration, appendVlan_error_of_no_record hmiss n.name b⟩
            obtain ⟨e, he⟩ :=
              pyFoldlM_error_of_mem (appendVlan vlans n.name) hvmem hbad gs2
            refine ⟨e, ?_⟩
            unfold processNode
            simp only [hf, pyBind_ok, hl, hnv, hmv, haf, had, he, pyBind_error]

/-! ### Claim theorems -/

/-- C10: the gandi_iface delete operation can never succeed: for every
invocation with `state = "deleted"`, `main` evaluates
`delete_iface(module, gandi, iface_id)` where the local `iface_id` is read
before any assignment, so the run always aborts with an unbound-name error
(`UnboundLocalError`), whatever the other arguments, the driver snapshots or
the create outcome are. -/
theorem C10_delete_never_succeeds (params : IfaceParams)
    (locations : List Location) (pvlans : List Pvlan)
    (ifaces : List IfaceObj) (co : Except Unit IfaceObj)
    (h : params.state = "deleted") :
    gandi_iface_main params locations pvlans ifaces co = .error .nameError := by
  unfold gandi_iface_main
  rw [h]
  simp [iface_id_local]

/-- Witness for C10 at a concrete invocation. -/
theorem C10_witness :
    egIfaceParams.state = "deleted" ∧
    gandi_iface_main egIfaceParams [egLoc] [egPvlan] [] (.error ()) =
      .error .nameError :=
  ⟨rfl, C10_delete_never_succeeds egIfaceParams [egLoc] [egPvlan] [] (.error ()) rfl⟩

/-- C8: when a pvlan with the requested name already exists and the
datacenter resolves, `create_pvlan` returns `changed = False` with the
`get_pvlan_info` of the first existing record matching the name, and the
result does not depend on what the create call would return — i.e. no create
call is issued. -/
theorem C8_create_pvlan_existing (params : VlanParams)
    (locations : List Location) (pvlans : List Pvlan)
    (l : Location) (p : Pvlan)
    (hdc : get_by_name Location.name params.datacenter locations = some l)
    (hex : get_by_name Pvlan.name params.name pvlans = some p) :
    ∀ createOutcome, create_pvlan params locations pvlans createOutcome =
      .ok (false, get_pvlan_info p, params.name) := by
  intro co
  unfold create_pvlan
  rw [hdc, hex]

/-- Witness for C8 at a concrete invocation (create outcome arbitrary,
here a failing one). -/
theorem C8_witness :
    get_by_name Location.name egVlanParams.datacenter [egLoc] = some egLoc ∧
    get_by_name Pvlan.name egVlanParams.name [egPvlan] = some egPvlan ∧
    create_pvlan egVlanParams [egLoc] [egPvlan] (.error ()) =
      .ok (false, get_pvlan_info egPvlan, egVlanParams.name) :=
  ⟨rfl, rfl,
    C8_create_pvlan_existing egVlanParams [egLoc] [egPvlan] egLoc egPvlan
      rfl rfl (.error ())⟩

/-- C4: single-host lookup on a computed inventory: a host name absent from
the meta map yields the `KeyError` not-found condition (Python's
`LookupError` subclass) — never a successful result, in particular not an
empty object — and a present name yields exactly that host's fact
dictionary. -/
theorem C4_host_lookup (inventory : Groups) (m : Meta) (host : String)
    (h : dictGet? inventory "_meta" = some (.metaG m)) :
    (dictGet? m.hostvars host = none →
      hostLookup inventory host = .error .keyError) ∧
    (∀ hm, dictGet? m.hostvars host = some hm →
      hostLookup inventory host = .ok hm) := by
  constructor
  · intro habs
    unfold hostLookup
    simp only [h, pyBind_ok, habs]
  · intro hm hpres
    unfold hostLookup
    simp only [h, pyBind_ok, hpres]

/-- Witness for C4: lookup of an absent and of a present host name on a
concrete inventory. -/
theorem C4_witness :
    dictGet? egInv "_meta" = some (.metaG egMetaMap) ∧
    hostLookup egInv "h2" = .error .keyError ∧
    hostLookup egInv "h1" = .ok egHM :=
  ⟨rfl, (C4_host_lookup egInv egMetaMap "h2" rfl).1 rfl,
    (C4_host_lookup egInv egMetaMap "h1" rfl).2 egHM rfl⟩

/-- C7: aggregation is deterministic over its snapshot: two runs of
`group_nodes` on the same four collections that both succeed produce the
same groups dict (hence the same group membership) and the same meta map
under `"_meta"`. -/
theorem C7_deterministic (nodes : List Node) (locations : List Location)
    (ifaces : List Iface) (vlans : List Vlan) (gs gs' : Groups)
    (h : group_nodes nodes locations ifaces vlans = .ok gs)
    (h' : group_nodes nodes locations ifaces vlans = .ok gs') :
    gs = gs' ∧ dictGet? gs "_meta" = dictGet? gs' "_meta" := by
  rw [h] at h'
  obtain rfl := Except.ok.inj h'
  exact ⟨rfl, rfl⟩

/-- Witness for C7 on a concrete successful snapshot. -/
theorem C7_witness :
    group_nodes [egNode] [egLoc] [egIfaceDb, egIfaceWeb]
      [egVlanDb, egVlanWeb] = .ok egGroupsOut ∧
    (egGroupsOut = egGroupsOut ∧
      dictGet? egGroupsOut "_meta" = dictGet? egGroupsOut "_meta") :=
  ⟨rfl,
    C7_deterministic [egNode] [egLoc] [egIfaceDb, egIfaceWeb]
      [egVlanDb, egVlanWeb] egGroupsOut egGroupsOut rfl rfl⟩

/-- C2 (counterexample): a node whose datacenter id matches *two* locations
does not make the aggregation fail — the scan short-circuits on the first
match and the run succeeds, refuting the more-than-one-match half of the
claim. -/
theorem C2_counterexample :
    (List.filter (fun l => decide (locMatches l egNode.extra.datacenter_id))
      [egLoc, egLocDup]).length = 2 ∧
    group_nodes [egNode] [egLoc, egLocDup] [] [] = .ok egGroupsOutDup :=
  ⟨rfl, rfl⟩

/-- C2 (amended): a node whose datacenter id matches *zero* locations makes
the whole aggregation fail with an uncaught error rather than produce a
result (the scan itself raises `StopIteration`, Python's exhausted-search
signal; a node already mal-formed upstream aborts with that earlier error
instead); a node matching more than one location takes the first match. -/
theorem C2_amended_zero_match_fails (nodes : List Node)
    (locations : List Location) (ifaces : List Iface) (vlans : List Vlan)
    (n : Node) (hn : n ∈ nodes)
    (h : ∀ loc ∈ locations, ¬ locMatches loc n.extra.datacenter_id) :
    ∃ e, group_nodes nodes locations ifaces vlans = .error e :=
  group_nodes_error_of_mem hn (processNode_error_of_location h)

/-- Witness for the amended C2: `egNodeLost` (datacenter id 9) matches no
location in `[egLoc]` and the aggregation errors. -/
theorem C2_witness :
    (egNodeLost ∈ [egNodeLost] ∧
      ∀ loc ∈ [egLoc], ¬ locMatches loc egNodeLost.extra.datacenter_id) ∧
    ∃ e, group_nodes [egNodeLost] [egLoc] [] [] = .error e :=
  ⟨⟨List.mem_singleton.mpr rfl, by decide⟩,
    C2_amended_zero_match_fails [egNodeLost] [egLoc] [] [] egNodeLost
      (List.mem_singleton.mpr rfl) (by decide)⟩

theorem processNode_error_of_metadata_error {locations : List Location}
    {ifaces : List Iface} {vlans : List Vlan} {n : Node} {e0 : PyErr}
    (hmd : node_metadata_to_dict n = .error e0) (acc : Groups × Meta) :
    ∃ e, processNode locations ifaces vlans acc n = .error e := by
  cases hf : n.extra.farm with
  | none => exact ⟨.keyError, processNode_error_of_farm_none hf acc⟩
  | some f =>
    cases hl : findLocation locations n with
    | error e =>
      refine ⟨e, ?_⟩
      unfold processNode
      simp only [hf, pyBind_ok, hl, pyBind_error]
    | ok location =>
      cases hnv : nodeVlans n ifaces with
      | error e =>
        refine ⟨e, ?_⟩
        unfold processNode
        simp only [hf, pyBind_ok, hl, hnv, pyBind_error]
      | ok nv =>
        refine ⟨e0, ?_⟩
        unfold processNode
        simp only [hf, pyBind_ok, hl, hnv, hmd, pyBind_error]

/-- C9: a node with an empty public-IP list makes the per-host fact builder
raise `IndexError` (`node.public_ips[0]` is indexed unconditionally), and an
aggregation whose snapshot contains such a node can never succeed — a
non-empty public-IP list on every node is an unstated precondition of
successful aggregation. -/
theorem C9_empty_public_ips (nodes : List Node) (locations : List Location)
    (ifaces : List Iface) (vlans : List Vlan) (n : Node)
    (hn : n ∈ nodes) (hip : n.public_ips = []) :
    node_metadata_to_dict n = .error .indexError ∧
    ∃ e, group_nodes nodes locations ifaces vlans = .error e := by
  have hmd : node_metadata_to_dict n = .error .indexError := by
    unfold node_metadata_to_dict
    simp only [hip, pyBind_error]
  exact ⟨hmd,
    group_nodes_error_of_mem hn (processNode_error_of_metadata_error hmd)⟩

/-- Witness for C9: a node with no public IPs, everything else
well-formed. -/
theorem C9_witness :
    (egNodeNoIp ∈ [egNodeNoIp] ∧ egNodeNoIp.public_ips = []) ∧
    (node_metadata_to_dict egNodeNoIp = .error .indexError ∧
      ∃ e, group_nodes [egNodeNoIp] [egLoc] [egIfaceDb] [egVlanDb] =
        .error e) :=
  ⟨⟨List.mem_singleton.mpr rfl, rfl⟩,
    C9_empty_public_ips [egNodeNoIp] [egLoc] [egIfaceDb] [egVlanDb]
      egNodeNoIp (List.mem_singleton.mpr rfl) rfl⟩

/-- C3: if some interface owned by a listed node carries a VLAN name that
matches no record in the VLANs collection, the aggregation as a whole fails
with an uncaught error — no grouped result is returned at all, so no VLAN
group is silently omitted (the lookup `next(x for x in vlans if ...)` raises
`StopIteration` before the group dict is consulted). -/
theorem C3_unmatched_vlan_aborts (nodes : List Node)
    (locations : List Location) (ifaces : List Iface) (vlans : List Vlan)
    (n : Node) (ifc : Iface) (v : String)
    (hn : n ∈ nodes) (hifc : ifc ∈ ifaces) (hvl : ifc.vlan = some v)
    (hid : pyIntVal n.id = some ifc.node_id)
    (hmiss : ∀ vl ∈ vlans, vl.name ≠ v) :
    ∃ e, group_nodes nodes locations ifaces vlans = .error e :=
  group_nodes_error_of_mem hn
    (processNode_error_of_ghost_vlan hifc hvl hid hmiss)

/-- Witness for C3: `egIfaceGhost` carries VLAN name `"ghost"`, absent from
the VLAN collection `[egVlanDb, egVlanWeb]`. -/
theorem C3_witness :
    (egNode ∈ [egNode] ∧ egIfaceGhost ∈ [egIfaceGhost] ∧
      egIfaceGhost.vlan = some "ghost" ∧
      pyIntVal egNode.id = some egIfaceGhost.node_id ∧
      ∀ vl ∈ [egVlanDb, egVlanWeb], vl.name ≠ "ghost") ∧
    ∃ e, group_nodes [egNode] [egLoc] [egIfaceGhost]
      [egVlanDb, egVlanWeb] = .error e :=
  ⟨⟨List.mem_singleton.mpr rfl, List.mem_singleton.mpr rfl, rfl, by decide,
      by decide⟩,
    C3_unmatched_vlan_aborts [egNode] [egLoc] [egIfaceGhost]
      [egVlanDb, egVlanWeb] egNode egIfaceGhost "ghost"
      (List.mem_singleton.mpr rfl) (List.mem_singleton.mpr rfl) rfl
      (by decide) (by decide)⟩

/-! ### Shapes of the three group-updating operations -/

theorem appendFarm_ok_shape {gs : Groups} {f name : String} {gs' : Groups}
    (h : appendFarm gs f name = .ok gs') :
    ∃ hs', gs' = dictSet gs f (.plain hs') ∧ name ∈ hs' ∧
      ((dictGet? gs f = none ∧ hs' = [name]) ∨
        (∃ hs0, dictGet? gs f = some (.plain hs0) ∧ hs' = hs0 ++ [name])) := by
  unfold appendFarm at h
  cases hd : dictGet? gs f with
  | none =>
    rw [hd] at h
    exact ⟨[name], (Except.ok.inj h).symm, List.mem_singleton.mpr rfl,
      Or.inl ⟨rfl, rfl⟩⟩
  | some v =>
    rw [hd] at h
    cases v with
    | plain hs0 =>
      exact ⟨hs0 ++ [name], (Except.ok.inj h).symm,
        List.mem_append_right hs0 (List.mem_singleton.mpr rfl),
        Or.inr ⟨hs0, rfl, rfl⟩⟩
    | varG hs0 vs0 => cases h
    | metaG mm => cases h

theorem appendDatacenter_ok_shape {gs : Groups} {location : Location}
    {name : String} {gs' : Groups}
    (h : appendDatacenter gs location name = .ok gs') :
    ∃ hs' vs', gs' = dictSet gs location.name (.varG hs' vs') ∧ name ∈ hs' ∧
      ((dictGet? gs location.name = none ∧ hs' = [name] ∧
          vs' = loc_to_dict location) ∨
        (∃ hs0, dictGet? gs location.name = some (.varG hs0 vs') ∧
          hs' = hs0 ++ [name])) := by
  unfold appendDatacenter at h
  cases hd : dictGet? gs location.name with
  | none =>
    rw [hd] at h
    exact ⟨[name], loc_to_dict location, (Except.ok.inj h).symm,
      List.mem_singleton.mpr rfl, Or.inl ⟨rfl, rfl, rfl⟩⟩
  | some v =>
    rw [hd] at h
    cases v with
    | plain hs0 => cases h
    | varG hs0 vs0 =>
      exact ⟨hs0 ++ [name], vs0, (Except.ok.inj h).symm,
        List.mem_append_right hs0 (List.mem_singleton.mpr rfl),
        Or.inr ⟨hs0, rfl, rfl⟩⟩
    | metaG mm => cases h

theorem appendVlan_ok_shape {vlans : List Vlan} {name : String} {gs : Groups}
    {v : String} {gs' : Groups}
    (h : appendVlan vlans name gs v = .ok gs') :
    ∃ hs' vs', gs' = dictSet gs v (.varG hs' vs') ∧ name ∈ hs' ∧
      ((dictGet? gs v = none ∧ hs' = [name]) ∨
        (∃ hs0, dictGet? gs v = some (.varG hs0 vs') ∧
          hs' = hs0 ++ [name])) := by
  unfold appendVlan at h
  cases hnx : pyNext (fun x => Except.ok (decide (v = x.name))) vlans with
  | error e => rw [hnx] at h; cases h
  | ok rec =>
    rw [hnx] at h
    simp only [pyBind_ok] at h
    cases hd : dictGet? gs v with
    | none =>
      rw [hd] at h
      exact ⟨[name], vlan_to_dict rec, (Except.ok.inj h).symm,
        List.mem_singleton.mpr rfl, Or.inl ⟨rfl, rfl⟩⟩
    | some gv =>
      rw [hd] at h
      cases gv with
      | plain hs0 => cases h
      | varG hs0 vs0 =>
        exact ⟨hs0 ++ [name], vs0, (Except.ok.inj h).symm,
          List.mem_append_right hs0 (List.mem_singleton.mpr rfl),
          Or.inr ⟨hs0, rfl, rfl⟩⟩
      | metaG mm => cases h

theorem appendVlan_error_of_plain {vlans : List Vlan} {name : String}
    {gs : Groups} {v : String} {hs : List String}
    (hd : dictGet? gs v = some (.plain hs)) :
    ∀ c, appendVlan vlans name gs v ≠ .ok c := by
  intro c hok
  obtain ⟨hs', vs', _, _, hcase⟩ := appendVlan_ok_shape hok
  rcases hcase with ⟨h0, _⟩ | ⟨hs0, h0, _⟩ <;> rw [hd] at h0 <;> cases h0

theorem appendFarm_get_ne {gs : Groups} {f name : String} {gs' : Groups}
    {k : String} (h : appendFarm gs f name = .ok gs') (hk : f ≠ k) :
    dictGet? gs' k = dictGet? gs k := by
  obtain ⟨hs', hset, _, _⟩ := appendFarm_ok_shape h
  rw [hset, dictGet_dictSet_ne gs _ hk]

theorem appendDatacenter_get_ne {gs : Groups} {location : Location}
    {name : String} {gs' : Groups} {k : String}
    (h : appendDatacenter gs location name = .ok gs') (hk : location.name ≠ k) :
    dictGet? gs' k = dictGet? gs k := by
  obtain ⟨hs', vs', hset, _, _⟩ := appendDatacenter_ok_shape h
  rw [hset, dictGet_dictSet_ne gs _ hk]

theorem appendVlan_get_ne {vlans : List Vlan} {name : String} {gs : Groups}
    {v : String} {gs' : Groups} {k : String}
    (h : appendVlan vlans name gs v = .ok gs') (hk : v ≠ k) :
    dictGet? gs' k = dictGet? gs k := by
  obtain ⟨hs', vs', hset, _, _⟩ := appendVlan_ok_shape h
  rw [hset, dictGet_dictSet_ne gs _ hk]

/-- A successful VLAN-group fold leaves a bare-list (farm) binding
untouched: a step at that key would raise instead. -/
theorem appendVlan_fold_plain_persist {vlans : List Vlan} {name : String}
    {nv : List String} {gs gs' : Groups} {k : String} {hs : List String}
    (hsucc : List.foldlM (appendVlan vlans name) gs nv = .ok gs')
    (hplain : dictGet? gs k = some (.plain hs)) :
    dictGet? gs' k = some (.plain hs) := by
  induction nv generalizing gs with
  | nil => rw [pyFoldlM_nil] at hsucc; rw [← Except.ok.inj hsucc]; exact hplain
  | cons v rest ih =>
    rw [pyFoldlM_cons] at hsucc
    obtain ⟨gs1, h1, h2⟩ := ebind_ok_iff.mp hsucc
    by_cases hvk : v = k
    · subst hvk
      exact absurd h1 (appendVlan_error_of_plain hplain gs1)
    · exact ih h2 (by rw [appendVlan_get_ne h1 hvk]; exact hplain)

/-- A successful VLAN-group fold can only append to a hosts/vars binding:
the vars stay, membership persists. -/
theorem appendVlan_fold_varG_persist {vlans : List Vlan} {name : String}
    {nv : List String} {gs gs' : Groups} {k x : String} {hs : List String}
    {vs : Vars}
    (hsucc : List.foldlM (appendVlan vlans name) gs nv = .ok gs')
    (hvarG : dictGet? gs k = some (.varG hs vs)) (hx : x ∈ hs) :
    ∃ hs', dictGet? gs' k = some (.varG hs' vs) ∧ x ∈ hs' := by
  induction nv generalizing gs hs with
  | nil =>
    rw [pyFoldlM_nil] at hsucc
    exact ⟨hs, by rw [← Except.ok.inj hsucc]; exact hvarG, hx⟩
  | cons v rest ih =>
    rw [pyFoldlM_cons] at hsucc
    obtain ⟨gs1, h1, h2⟩ := ebind_ok_iff.mp hsucc
    by_cases hvk : v = k
    · subst hvk
      obtain ⟨hs', vs', hset, _, hcase⟩ := appendVlan_ok_shape h1
      rcases hcase with ⟨h0, _⟩ | ⟨hs0, h0, heq⟩
      · rw [hvarG] at h0; cases h0
      · rw [hvarG] at h0
        obtain ⟨rfl, rfl⟩ : hs0 = hs ∧ vs' = vs := by
          have := Option.some.inj h0
          injection this with a b
          exact ⟨a.symm, b.symm⟩
        exact ih h2 (by rw [hset, dictGet_dictSet_self])
          (by rw [heq]; exact List.mem_append_left _ hx)
    · exact ih h2 (by rw [appendVlan_get_ne h1 hvk]; exact hvarG) hx

/-! ### Step characterization of successful group updates -/

theorem stepChar_refl {P : String → Prop} (gs : Groups) (k : String) :
    StepChar P gs gs k := by
  refine ⟨fun hs vs h => ⟨[], by simpa using h, by simp⟩,
    fun hs h => ⟨[], by simpa using h, by simp⟩,
    fun mm h => h, fun h => Or.inl h⟩

theorem stepChar_mono {P Q : String → Prop} {gs gs' : Groups} {k : String}
    (hPQ : ∀ y, P y → Q y) (h : StepChar P gs gs' k) :
    StepChar Q gs gs' k := by
  obtain ⟨h1, h2, h3, h4⟩ := h
  refine ⟨?_, ?_, h3, ?_⟩
  · intro hs vs hd
    obtain ⟨tail, ht, hp⟩ := h1 hs vs hd
    exact ⟨tail, ht, fun y hy => hPQ y (hp y hy)⟩
  · intro hs hd
    obtain ⟨tail, ht, hp⟩ := h2 hs hd
    exact ⟨tail, ht, fun y hy => hPQ y (hp y hy)⟩
  · intro hd
    rcases h4 hd with h | ⟨val, hv, hp⟩
    · exact Or.inl h
    · exact Or.inr ⟨val, hv, fun y hy => hPQ y (hp y hy)⟩

theorem stepChar_trans {P Q : String → Prop} {gs gs1 gs2 : Groups}
    {k : String} (hP : StepChar P gs gs1 k) (hQ : StepChar Q gs1 gs2 k) :
    StepChar (fun y => P y ∨ Q y) gs gs2 k := by
  obtain ⟨p1, p2, p3, p4⟩ := hP
  obtain ⟨q1, q2, q3, q4⟩ := hQ
  refine ⟨?_, ?_, ?_, ?_⟩
  · intro hs vs hd
    obtain ⟨t1, ht1, hp1⟩ := p1 hs vs hd
    obtain ⟨t2, ht2, hp2⟩ := q1 _ vs ht1
    refine ⟨t1 ++ t2, by rw [← List.append_assoc]; exact ht2, ?_⟩
    intro y hy
    rcases List.mem_append.mp hy with hy | hy
    · exact Or.inl (hp1 y hy)
    · exact Or.inr (hp2 y hy)
  · intro hs hd
    obtain ⟨t1, ht1, hp1⟩ := p2 hs hd
    obtain ⟨t2, ht2, hp2⟩ := q2 _ ht1
    refine ⟨t1 ++ t2, by rw [← List.append_assoc]; exact ht2, ?_⟩
    intro y hy
    rcases List.mem_append.mp hy with hy | hy
    · exact Or.inl (hp1 y hy)
    · exact Or.inr (hp2 y hy)
  · intro mm hd
    exact q3 mm (p3 mm hd)
  · intro hd
    rcases p4 hd with h1 | ⟨val, hv, hp⟩
    · rcases q4 h1 with h2 | ⟨val, hv, hp⟩
      · exact Or.inl h2
      · exact Or.inr ⟨val, hv, fun y hy => Or.inr (hp y hy)⟩
    · cases val with
      | plain hs0 =>
        obtain ⟨t2, ht2, hp2⟩ := q2 hs0 hv
        refine Or.inr ⟨.plain (hs0 ++ t2), ht2, ?_⟩
        intro y hy
        rcases List.mem_append.mp hy with hy | hy
        · exact Or.inl (hp y hy)
        · exact Or.inr (hp2 y hy)
      | varG hs0 vs0 =>
        obtain ⟨t2, ht2, hp2⟩ := q1 hs0 vs0 hv
        refine Or.inr ⟨.varG (hs0 ++ t2) vs0, ht2, ?_⟩
        intro y hy
        rcases List.mem_append.mp hy with hy | hy
        · exact Or.inl (hp y hy)
        · exact Or.inr (hp2 y hy)
      | metaG mm =>
        exact Or.inr ⟨.metaG mm, q3 mm hv, by simp [hostsOf]⟩

theorem appendFarm_char {gs : Groups} {f nm : String} {gs' : Groups}
    (h : appendFarm gs f nm = .ok gs') (k : String) :
    StepChar (· = nm) gs gs' k := by
  obtain ⟨hs', hset, hmem, hcase⟩ := appendFarm_ok_shape h
  by_cases hfk : f = k
  · subst hfk
    rcases hcase with ⟨hnone, heq⟩ | ⟨hs0, hsome, heq⟩
    · refine ⟨?_, ?_, ?_, ?_⟩
      · intro hs vs hd; rw [hd] at hnone; cases hnone
      · intro hs hd; rw [hd] at hnone; cases hnone
      · intro mm hd; rw [hd] at hnone; cases hnone
      · intro _
        refine Or.inr ⟨.plain hs', by rw [hset, dictGet_dictSet_self], ?_⟩
        intro y hy
        rw [heq] at hy
        simpa [hostsOf] using hy
    · refine ⟨?_, ?_, ?_, ?_⟩
      · intro hs vs hd; rw [hd] at hsome; cases Option.some.inj hsome
      · intro hs hd
        rw [hd] at hsome
        obtain rfl : hs0 = hs := by
          have := Option.some.inj hsome; injection this with a; exact a.symm
        exact ⟨[nm], by rw [hset, dictGet_dictSet_self, heq], by simp⟩
      · intro mm hd; rw [hd] at hsome; cases Option.some.inj hsome
      · intro hd; rw [hd] at hsome; cases hsome
  · have hget : dictGet? gs' k = dictGet? gs k := by
      rw [hset, dictGet_dictSet_ne gs _ hfk]
    refine ⟨fun hs vs hd => ⟨[], by rw [hget]; simpa using hd, by simp⟩,
      fun hs hd => ⟨[], by rw [hget]; simpa using hd, by simp⟩,
      fun mm hd => by rw [hget]; exact hd,
      fun hd => Or.inl (by rw [hget]; exact hd)⟩

theorem appendDatacenter_char {gs : Groups} {location : Location}
    {nm : String} {gs' : Groups}
    (h : appendDatacenter gs location nm = .ok gs') (k : String) :
    StepChar (· = nm) gs gs' k := by
  obtain ⟨hs', vs', hset, hmem, hcase⟩ := appendDatacenter_ok_shape h
  by_cases hfk : location.name = k
  · subst hfk
    rcases hcase with ⟨hnone, heq, _⟩ | ⟨hs0, hsome, heq⟩
    · refine ⟨?_, ?_, ?_, ?_⟩
      · intro hs vs hd; rw [hd] at hnone; cases hnone
      · intro hs hd; rw [hd] at hnone; cases hnone
      · intro mm hd; rw [hd] at hnone; cases hnone
      · intro _
        refine Or.inr ⟨.varG hs' vs', by rw [hset, dictGet_dictSet_self], ?_⟩
        intro y hy
        rw [heq] at hy
        simpa [hostsOf] using hy
    · refine ⟨?_, ?_, ?_, ?_⟩
      · intro hs vs hd
        rw [hd] at hsome
        obtain ⟨rfl, rfl⟩ : hs0 = hs ∧ vs' = vs := by
          have := Option.some.inj hsome
          injection this with a b
          exact ⟨a.symm, b.symm⟩
        exact ⟨[nm], by rw [hset, dictGet_dictSet_self, heq], by simp⟩
      · intro hs hd; rw [hd] at hsome; cases Option.some.inj hsome
      · intro mm hd; rw [hd] at hsome; cases Option.some.inj hsome
      · intro hd; rw [hd] at hsome; cases hsome
  · have hget : dictGet? gs' k = dictGet? gs k := by
      rw [hset, dictGet_dictSet_ne gs _ hfk]
    refine ⟨fun hs vs hd => ⟨[], by rw [hget]; simpa using hd, by simp⟩,
      fun hs hd => ⟨[], by rw [hget]; simpa using hd, by simp⟩,
      fun mm hd => by rw [hget]; exact hd,
      fun hd => Or.inl (by rw [hget]; exact hd)⟩

theorem appendVlan_char {vlans : List Vlan} {nm : String} {gs : Groups}
    {v : String} {gs' : Groups}
    (h : appendVlan vlans nm gs v = .ok gs') (k : String) :
    StepChar (· = nm) gs gs' k := by
  obtain ⟨hs', vs', hset, hmem, hcase⟩ := appendVlan_ok_shape h
  by_cases hfk : v = k
  · subst hfk
    rcases hcase with ⟨hnone, heq⟩ | ⟨hs0, hsome, heq⟩
    · refine ⟨?_, ?_, ?_, ?_⟩
      · intro hs vs hd; rw [hd] at hnone; cases hnone
      · intro hs hd; rw [hd] at hnone; cases hnone
      · intro mm hd; rw [hd] at hnone; cases hnone
      · intro _
        refine Or.inr ⟨.varG hs' vs', by rw [hset, dictGet_dictSet_self], ?_⟩
        intro y hy
        rw [heq] at hy
        simpa [hostsOf] using hy
    · refine ⟨?_, ?_, ?_, ?_⟩
      · intro hs vs hd
        rw [hd] at hsome
        obtain ⟨rfl, rfl⟩ : hs0 = hs ∧ vs' = vs := by
          have := Option.some.inj hsome
          injection this with a b
          exact ⟨a.symm, b.symm⟩
        exact ⟨[nm], by rw [hset, dictGet_dictSet_self, heq], by simp⟩
      · intro hs hd; rw [hd] at hsome; cases Option.some.inj hsome
      · intro mm hd; rw [hd] at hsome; cases Option.some.inj hsome
      · intro hd; rw [hd] at hsome; cases hsome
  · have hget : dictGet? gs' k = dictGet? gs k := by
      rw [hset, dictGet_dictSet_ne gs _ hfk]
    refine ⟨fun hs vs hd => ⟨[], by rw [hget]; simpa using hd, by simp⟩,
      fun hs hd => ⟨[], by rw [hget]; simpa using hd, by simp⟩,
      fun mm hd => by rw [hget]; exact hd,
      fun hd => Or.inl (by rw [hget]; exact hd)⟩

theorem appendVlan_fold_char {vlans : List Vlan} {nm : String}
    {nv : List String} {gs gs' : Groups}
    (h : List.foldlM (appendVlan vlans nm) gs nv = .ok gs') (k : String) :
    StepChar (· = nm) gs gs' k := by
  induction nv generalizing gs with
  | nil =>
    rw [pyFoldlM_nil] at h
    rw [← Except.ok.inj h]
    exact stepChar_refl gs k
  | cons v rest ih =>
    rw [pyFoldlM_cons] at h
    obtain ⟨gs1, h1, h2⟩ := ebind_ok_iff.mp h
    exact stepChar_mono (fun y hy => hy.elim id id)
      (stepChar_trans (appendVlan_char h1 k) (ih h2))

theorem processNode_char {locations : List Location} {ifaces : List Iface}
    {vlans : List Vlan} {gs : Groups} {m : Meta} {n : Node} {gs' : Groups}
    {m' : Meta}
    (h : processNode locations ifaces vlans (gs, m) n = .ok (gs', m'))
    (k : String) : StepChar (· = n.name) gs gs' k := by
  obtain ⟨f, location, nv, hm, gs1, gs2, hf, hl, hnv, hmv, haf, had, hfold, _⟩ :=
    processNode_ok_inv h
  exact stepChar_mono (fun y hy => (hy.elim id fun hy => hy.elim id id))
    (stepChar_trans (appendFarm_char haf k)
      (stepChar_trans (appendDatacenter_char had k)
        (appendVlan_fold_char hfold k)))

theorem foldNodes_char {locations : List Location} {ifaces : List Iface}
    {vlans : List Vlan} {l : List Node} {acc : Groups × Meta}
    {gsF : Groups} {mF : Meta}
    (h : List.foldlM (processNode locations ifaces vlans) acc l =
      .ok (gsF, mF)) (k : String) :
    StepChar (fun y => ∃ nn ∈ l, y = nn.name) acc.1 gsF k := by
  induction l generalizing acc with
  | nil =>
    rw [pyFoldlM_nil] at h
    have : acc.1 = gsF := congrArg Prod.fst (Except.ok.inj h)
    rw [← this]
    exact stepChar_refl acc.1 k
  | cons n rest ih =>
    rw [pyFoldlM_cons] at h
    obtain ⟨acc1, h1, h2⟩ := ebind_ok_iff.mp h
    have hstep : StepChar (· = n.name) acc.1 acc1.1 k := by
      have h1' : processNode locations ifaces vlans (acc.1, acc.2) n =
          .ok (acc1.1, acc1.2) := by
        simpa using h1
      exact processNode_char h1' k
    have hrest := ih h2
    refine stepChar_mono ?_ (stepChar_trans hstep hrest)
    intro y hy
    rcases hy with hy | ⟨nn, hnn, hy⟩
    · exact ⟨n, List.mem_cons_self n rest, hy⟩
    · exact ⟨nn, List.mem_cons_of_mem n hnn, hy⟩

theorem pyFoldlM_ok_split {α β : Type} (f : β → α → Except PyErr β)
    {x : α} {l : List α} {b c : β} (hx : x ∈ l)
    (h : List.foldlM f b l = .ok c) :
    ∃ l1 l2 b1 b2, l = l1 ++ x :: l2 ∧ List.foldlM f b l1 = .ok b1 ∧
      f b1 x = .ok b2 ∧ List.foldlM f b2 l2 = .ok c := by
  obtain ⟨l1, l2, rfl⟩ := List.append_of_mem hx
  obtain ⟨b1, hb1, hrest⟩ := (pyFoldlM_append_ok f l1 (x :: l2) b c).mp h
  rw [pyFoldlM_cons] at hrest
  obtain ⟨b2, hb2, hc⟩ := ebind_ok_iff.mp hrest
  exact ⟨l1, l2, b1, b2, rfl, hb1, hb2, hc⟩

/-- C5 (amended): a node whose farm key is *absent* from `extra` aborts the
whole aggregation with a `KeyError` — no output at all is produced.  A node
whose farm label is the *empty string* does produce a farm group entry: on a
successful run its name is in a bare-list group under the key `""`.  On any
successful run the reserved `"_meta"` key is present, and the node's name is
in a hosts/vars group under its resolved location's name (provided that name
is not the reserved key, which the final meta write would overwrite). -/
theorem C5_amended_farm_handling (nodes : List Node)
    (locations : List Location) (ifaces : List Iface) (vlans : List Vlan)
    (n : Node) (hn : n ∈ nodes) :
    (n.extra.farm = none →
      ∃ e, group_nodes nodes locations ifaces vlans = .error e) ∧
    (∀ gs, group_nodes nodes locations ifaces vlans = .ok gs →
      (∃ m, dictGet? gs "_meta" = some (.metaG m)) ∧
      (n.extra.farm = some "" →
        ∃ hs, dictGet? gs "" = some (.plain hs) ∧ n.name ∈ hs) ∧
      (∃ location, findLocation locations n = .ok location ∧
        (location.name ≠ "_meta" →
          ∃ hs vars, dictGet? gs location.name = some (.varG hs vars) ∧
            n.name ∈ hs))) := by
  constructor
  · intro hnone
    exact group_nodes_error_of_mem hn
      (fun acc => ⟨.keyError, processNode_error_of_farm_none hnone acc⟩)
  · intro gs hok
    obtain ⟨gsF, m, hfold, hgs⟩ := group_nodes_ok_inv hok
    obtain ⟨l1, l2, b1, b2, hsplit, hl1, hstep, hl2⟩ :=
      pyFoldlM_ok_split _ hn hfold
    have hstep' : processNode locations ifaces vlans (b1.1, b1.2) n =
        .ok (b2.1, b2.2) := by simpa using hstep
    obtain ⟨f, location, nv, hmv, gs1, gs2, hf, hl, hnv, hmvd, haf, had,
      hfoldv, hm2⟩ := processNode_ok_inv hstep'
    have hl2' : List.foldlM (processNode locations ifaces vlans) b2 l2 =
        .ok (gsF, m) := hl2
    refine ⟨⟨m, by rw [hgs, dictGet_dictSet_self]⟩, ?_, ?_⟩
    · intro hff
      obtain rfl : f = "" := by rw [hf] at hff; exact Option.some.inj hff
      obtain ⟨hs1, hset1, hmem1, _⟩ := appendFarm_ok_shape haf
      have hg1 : dictGet? gs1 "" = some (.plain hs1) := by
        rw [hset1, dictGet_dictSet_self]
      obtain ⟨t1, hg2, _⟩ := (appendDatacenter_char had "").2.1 hs1 hg1
      obtain ⟨t2, hg3, _⟩ := (appendVlan_fold_char hfoldv "").2.1 _ hg2
      obtain ⟨t3, hg4, _⟩ := (foldNodes_char hl2' "").2.1 _ hg3
      refine ⟨hs1 ++ t1 ++ t2 ++ t3, ?_, ?_⟩
      · rw [hgs, dictGet_dictSet_ne gsF _ (by decide)]
        exact hg4
      · exact List.mem_append_left _
          (List.mem_append_left _ (List.mem_append_left _ hmem1))
    · refine ⟨location, hl, ?_⟩
      intro hmne
      obtain ⟨hs2, vs2, hset2, hmem2, _⟩ := appendDatacenter_ok_shape had
      have hg2 : dictGet? gs2 location.name = some (.varG hs2 vs2) := by
        rw [hset2, dictGet_dictSet_self]
      obtain ⟨t2, hg3, _⟩ :=
        (appendVlan_fold_char hfoldv location.name).1 hs2 vs2 hg2
      obtain ⟨t3, hg4, _⟩ := (foldNodes_char hl2' location.name).1 _ vs2 hg3
      refine ⟨hs2 ++ t2 ++ t3, vs2, ?_, ?_⟩
      · rw [hgs, dictGet_dictSet_ne gsF _ (fun hh => hmne hh.symm)]
        exact hg4
      · exact List.mem_append_left _ (List.mem_append_left _ hmem2)

/-- C5 (counterexample): a node whose farm label is the empty string — a
node "belonging to no farm" — *does* get a farm group entry: the aggregation
succeeds and files its name under the group keyed by the empty string,
refuting "produces no farm group entry for that node".  (And an *absent*
farm key does not merely skip the farm group: it aborts the whole run, see
the amended statement.) -/
theorem C5_counterexample :
    egNodeEmptyFarm.extra.farm = some "" ∧
    group_nodes [egNodeEmptyFarm] [egLoc] [] [] = .ok egGroupsOutEmptyFarm ∧
    dictGet? egGroupsOutEmptyFarm "" = some (.plain ["h1"]) ∧
    egNodeEmptyFarm.name = "h1" :=
  ⟨rfl, rfl, rfl, rfl⟩

/-- Witness for the amended C5: the empty-farm node gets a `""`-keyed farm
group on the successful run, the meta key is present, and the farm-absent
node aborts the aggregation. -/
theorem C5_witness :
    (egNodeEmptyFarm ∈ [egNodeEmptyFarm] ∧
      egNodeEmptyFarm.extra.farm = some "" ∧
      group_nodes [egNodeEmptyFarm] [egLoc] [] [] =
        .ok egGroupsOutEmptyFarm) ∧
    (∃ hs, dictGet? egGroupsOutEmptyFarm "" = some (.plain hs) ∧
      egNodeEmptyFarm.name ∈ hs) ∧
    (∃ m, dictGet? egGroupsOutEmptyFarm "_meta" = some (.metaG m)) ∧
    (egNodeNoFarm ∈ [egNodeNoFarm] ∧ egNodeNoFarm.extra.farm = none) ∧
    (∃ e, group_nodes [egNodeNoFarm] [egLoc] [] [] = .error e) :=
  ⟨⟨List.mem_singleton.mpr rfl, rfl, rfl⟩,
    ((C5_amended_farm_handling [egNodeEmptyFarm] [egLoc] [] []
        egNodeEmptyFarm (List.mem_singleton.mpr rfl)).2
      egGroupsOutEmptyFarm rfl).2.1 rfl,
    ((C5_amended_farm_handling [egNodeEmptyFarm] [egLoc] [] []
        egNodeEmptyFarm (List.mem_singleton.mpr rfl)).2
      egGroupsOutEmptyFarm rfl).1,
    ⟨List.mem_singleton.mpr rfl, rfl⟩,
    (C5_amended_farm_handling [egNodeNoFarm] [egLoc] [] [] egNodeNoFarm
      (List.mem_singleton.mpr rfl)).1 rfl⟩

/-! ### Counting machinery for VLAN-group membership -/

theorem hostCount_congr {gs gs' : Groups} {k : String}
    (h : dictGet? gs' k = dictGet? gs k) (x : String) :
    hostCount gs' k x = hostCount gs k x := by
  unfold hostCount
  rw [h]

theorem stepChar_count {P : String → Prop} {gs gs' : Groups} {k x : String}
    (h : StepChar P gs gs' k) (hx : ¬ P x) :
    hostCount gs' k x = hostCount gs k x := by
  obtain ⟨h1, h2, h3, h4⟩ := h
  unfold hostCount
  cases hd : dictGet? gs k with
  | none =>
    rcases h4 hd with h | ⟨val, hv, hp⟩
    · rw [h]
    · rw [hv]
      have hxm : x ∉ hostsOf val := fun hmem => hx (hp x hmem)
      simp [List.count_eq_zero.mpr hxm]
  | some val =>
    cases val with
    | plain hs =>
      obtain ⟨tail, ht, hp⟩ := h2 hs hd
      rw [ht]
      have hxm : x ∉ tail := fun hm => hx (hp x hm)
      simp [hostsOf, List.count_append, List.count_eq_zero.mpr hxm]
    | varG hs vs =>
      obtain ⟨tail, ht, hp⟩ := h1 hs vs hd
      rw [ht]
      have hxm : x ∉ tail := fun hm => hx (hp x hm)
      simp [hostsOf, List.count_append, List.count_eq_zero.mpr hxm]
    | metaG mm =>
      rw [h3 mm hd]

theorem appendVlan_fold_get_ne {vlans : List Vlan} {x : String}
    {nv : List String} {gs gs' : Groups} {k : String}
    (hsucc : List.foldlM (appendVlan vlans x) gs nv = .ok gs')
    (hk : k ∉ nv) : dictGet? gs' k = dictGet? gs k := by
  induction nv generalizing gs with
  | nil => rw [pyFoldlM_nil] at hsucc; rw [← Except.ok.inj hsucc]
  | cons v rest ih =>
    rw [pyFoldlM_cons] at hsucc
    obtain ⟨gs1, h1, h2⟩ := ebind_ok_iff.mp hsucc
    have hvk : v ≠ k := fun hh => hk (hh ▸ List.mem_cons_self v rest)
    rw [ih h2 (fun hh => hk (List.mem_cons_of_mem v hh)),
      appendVlan_get_ne h1 hvk]

theorem appendVlan_fold_no_ok_of_plain_mem {vlans : List Vlan} {x : String}
    {nv : List String} {gs : Groups} {k : String} {hs : List String}
    (hplain : dictGet? gs k = some (.plain hs)) (hk : k ∈ nv) :
    ∀ c, List.foldlM (appendVlan vlans x) gs nv ≠ .ok c := by
  induction nv generalizing gs with
  | nil => cases hk
  | cons v rest ih =>
    intro c hc
    rw [pyFoldlM_cons] at hc
    obtain ⟨gs1, h1, h2⟩ := ebind_ok_iff.mp hc
    by_cases hvk : v = k
    · subst hvk
      exact appendVlan_error_of_plain hplain gs1 h1
    · have hk' : k ∈ rest := by
        rcases List.mem_cons.mp hk with hh | hh
        · exact absurd hh.symm hvk
        · exact hh
      exact ih (by rw [appendVlan_get_ne h1 hvk]; exact hplain) hk' c h2

theorem appendVlan_fold_at_key {vlans : List Vlan} {x : String}
    {nv : List String} {gs gs' : Groups} {k : String}
    (hsucc : List.foldlM (appendVlan vlans x) gs nv = .ok gs')
    (hcount : nv.count k = 1) :
    hostCount gs' k x = hostCount gs k x + 1 ∧
    ∃ hs vs, dictGet? gs' k = some (.varG hs vs) ∧ x ∈ hs := by
  induction nv generalizing gs with
  | nil => simp at hcount
  | cons v rest ih =>
    rw [pyFoldlM_cons] at hsucc
    obtain ⟨gs1, h1, h2⟩ := ebind_ok_iff.mp hsucc
    by_cases hvk : v = k
    · subst hvk
      have hrest : rest.count v = 0 := by
        have := hcount
        simp [List.count_cons] at this
        exact this
      have hnot : v ∉ rest := List.count_eq_zero.mp hrest
      have hpreserve : dictGet? gs' v = dictGet? gs1 v :=
        appendVlan_fold_get_ne h2 hnot
      obtain ⟨hs', vs', hset, hmem, hcase⟩ := appendVlan_ok_shape h1
      have hg1 : dictGet? gs1 v = some (.varG hs' vs') := by
        rw [hset, dictGet_dictSet_self]
      refine ⟨?_, hs', vs', by rw [hpreserve]; exact hg1, hmem⟩
      have hcnt' : hostCount gs' v x = (hs').count x := by
        unfold hostCount
        rw [hpreserve, hg1]
        rfl
      rcases hcase with ⟨hnone, heq⟩ | ⟨hs0, hsome, heq⟩
      · rw [hcnt', heq]
        unfold hostCount
        rw [hnone]
        simp
      · rw [hcnt', heq]
        unfold hostCount
        rw [hsome]
        simp [hostsOf, List.count_append]
    · have hcount' : rest.count k = 1 := by
        have := hcount
        simp [List.count_cons, hvk] at this
        exact this
      obtain ⟨hc, hex⟩ := ih h2 hcount'
      refine ⟨?_, hex⟩
      rw [hc, hostCount_congr (appendVlan_get_ne h1 hvk) x]

theorem processNode_at_vlan_key {locations : List Location}
    {ifaces : List Iface} {vlans : List Vlan} {gs : Groups} {m : Meta}
    {n : Node} {gs' : Groups} {m' : Meta} {nv : List String} {k : String}
    (h : processNode locations ifaces vlans (gs, m) n = .ok (gs', m'))
    (hnv : nodeVlans n ifaces = .ok nv)
    (hcount : nv.count k = 1)
    (hlocname : ∀ location, findLocation locations n = .ok location →
      location.name ≠ k) :
    hostCount gs' k n.name = hostCount gs k n.name + 1 ∧
    ∃ hs vs, dictGet? gs' k = some (.varG hs vs) ∧ n.name ∈ hs := by
  obtain ⟨f, location, nv', hmv, gs1, gs2, hf, hl, hnv', hmvd, haf, had,
    hfoldv, _⟩ := processNode_ok_inv h
  have heq : nv' = nv := by
    rw [hnv] at hnv'
    exact (Except.ok.inj hnv').symm
  rw [heq] at hfoldv
  have hkm : k ∈ nv :=
    List.count_pos_iff.mp (by rw [hcount]; exact Nat.one_pos)
  have hlk : location.name ≠ k := hlocname location hl
  by_cases hfk : f = k
  · subst hfk
    obtain ⟨hs1, hset1, _, _⟩ := appendFarm_ok_shape haf
    have hg1 : dictGet? gs1 f = some (.plain hs1) := by
      rw [hset1, dictGet_dictSet_self]
    have hg2 : dictGet? gs2 f = some (.plain hs1) := by
      rw [appendDatacenter_get_ne had hlk]
      exact hg1
    exact absurd hfoldv (appendVlan_fold_no_ok_of_plain_mem hg2 hkm gs')
  · have hg1 : dictGet? gs1 k = dictGet? gs k := appendFarm_get_ne haf hfk
    have hg2 : dictGet? gs2 k = dictGet? gs k := by
      rw [appendDatacenter_get_ne had hlk, hg1]
    obtain ⟨hc, hex⟩ := appendVlan_fold_at_key hfoldv hcount
    exact ⟨by rw [hc, hostCount_congr hg2], hex⟩

/-- On a successful aggregation, a node whose interface-derived VLAN-name
list mentions `k` exactly once — and whose own datacenter group is not also
named `k` — contributes its name to the group `k` exactly once, provided
node names are pairwise distinct (`k` is a real group key, not the reserved
meta key). -/
theorem group_nodes_vlan_member_once {nodes : List Node}
    {locations : List Location} {ifaces : List Iface} {vlans : List Vlan}
    {n : Node} {nv : List String} {k : String} {gs : Groups}
    (hn : n ∈ nodes)
    (hnodup : (nodes.map Node.name).Nodup)
    (hnv : nodeVlans n ifaces = .ok nv)
    (hcount : nv.count k = 1)
    (hlocname : ∀ location, findLocation locations n = .ok location →
      location.name ≠ k)
    (hkmeta : k ≠ "_meta")
    (hok : group_nodes nodes locations ifaces vlans = .ok gs) :
    ∃ hs vs, dictGet? gs k = some (.varG hs vs) ∧
      hs.count n.name = 1 := by
  obtain ⟨gsF, m, hfold, hgs⟩ := group_nodes_ok_inv hok
  obtain ⟨l1, l2, b1, b2, hsplit, hl1, hstep, hl2⟩ :=
    pyFoldlM_ok_split _ hn hfold
  have hstep' : processNode locations ifaces vlans (b1.1, b1.2) n =
      .ok (b2.1, b2.2) := by simpa using hstep
  -- names in the prefix and the suffix differ from n.name
  have hnodup' : ((l1 ++ n :: l2).map Node.name).Nodup := by
    rw [← hsplit]; exact hnodup
  rw [List.map_append, List.map_cons] at hnodup'
  obtain ⟨hn1, hn2, hdisj⟩ := List.nodup_append.mp hnodup'
  have hpre : ∀ nn ∈ l1, nn.name ≠ n.name := by
    intro nn hnn hh
    exact hdisj (List.mem_map_of_mem Node.name hnn)
      (by rw [hh]; exact List.mem_cons_self _ _)
  have hsuf : ∀ nn ∈ l2, nn.name ≠ n.name := by
    have := List.nodup_cons.mp hn2
    intro nn hnn hh
    exact this.1 (by rw [← hh]; exact List.mem_map_of_mem Node.name hnn)
  -- count is 0 before n's step
  have hc0 : hostCount b1.1 k n.name = 0 := by
    have hchar := @foldNodes_char locations ifaces vlans l1
      ([], { hostvars := [] }) b1.1 b1.2 (by simpa using hl1) k
    have := stepChar_count hchar (fun hp => by
      obtain ⟨nn, hnn, hh⟩ := hp
      exact hpre nn hnn hh.symm)
    rw [this]
    rfl
  -- n's step adds exactly one occurrence and leaves a hosts/vars group
  obtain ⟨hc1, hs2, vs2, hg2, hmem2⟩ :=
    processNode_at_vlan_key hstep' hnv hcount hlocname
  -- the suffix appends only other names and keeps the group's shape
  have hcharsuf := @foldNodes_char locations ifaces vlans l2 b2 gsF m hl2 k
  obtain ⟨tail, hg3, hptail⟩ := hcharsuf.1 hs2 vs2 (by simpa using hg2)
  have hcsuf : hostCount gsF k n.name = hostCount b2.1 k n.name :=
    stepChar_count hcharsuf (fun hp => by
      obtain ⟨nn, hnn, hh⟩ := hp
      exact hsuf nn hnn hh.symm)
  -- assemble
  have hget : dictGet? gs k = some (.varG (hs2 ++ tail) vs2) := by
    rw [hgs, dictGet_dictSet_ne gsF _ (fun hh => hkmeta hh.symm)]
    exact hg3
  refine ⟨hs2 ++ tail, vs2, hget, ?_⟩
  have hcF : hostCount gsF k n.name = 1 := by
    rw [hcsuf, hc1, hc0]
  have : hostCount gsF k n.name = (hs2 ++ tail).count n.name := by
    unfold hostCount
    rw [hg3]
    rfl
  rw [← this, hcF]

/-- C6 (amended): on a snapshot where aggregation succeeds, a host whose
interface-derived VLAN-name list contains `"db"` exactly once and `"web"`
exactly once (e.g. exactly two interfaces, one on each VLAN) ends up in the
`"db"` group exactly once and in the `"web"` group exactly once — provided
node names are pairwise distinct (two nodes sharing a name would both be
filed under it) and the host's own datacenter group is not itself named
`"db"` or `"web"` (the datacenter step would append the name to the same
dict entry a second time). -/
theorem C6_amended_db_web_once (nodes : List Node)
    (locations : List Location) (ifaces : List Iface) (vlans : List Vlan)
    (n : Node) (nv : List String) (gs : Groups)
    (hn : n ∈ nodes)
    (hnodup : (nodes.map Node.name).Nodup)
    (hnv : nodeVlans n ifaces = .ok nv)
    (hdb : nv.count "db" = 1) (hweb : nv.count "web" = 1)
    (hloc : ∀ location, findLocation locations n = .ok location →
      location.name ≠ "db" ∧ location.name ≠ "web")
    (hok : group_nodes nodes locations ifaces vlans = .ok gs) :
    (∃ hs vs, dictGet? gs "db" = some (.varG hs vs) ∧
      hs.count n.name = 1) ∧
    (∃ hs vs, dictGet? gs "web" = some (.varG hs vs) ∧
      hs.count n.name = 1) :=
  ⟨group_nodes_vlan_member_once hn hnodup hnv hdb
      (fun location hl => (hloc location hl).1) (by decide) hok,
    group_nodes_vlan_member_once hn hnodup hnv hweb
      (fun location hl => (hloc location hl).2) (by decide) hok⟩

/-- C6 (counterexample): a host with exactly two interfaces, one on VLAN
`"db"` and one on VLAN `"web"`, both VLANs present in the collection — but
whose farm label is also `"db"`.  The aggregation crashes (the farm step
creates a bare list under `"db"`, the VLAN step then evaluates
`groups['db']['hosts']`, a `TypeError`), so the host is placed in the groups
zero times, not once, refuting the claim over all inputs. -/
theorem C6_counterexample :
    nodeVlans egNodeFarmDb [egIfaceDb, egIfaceWeb] = .ok ["db", "web"] ∧
    egNodeFarmDb.extra.farm = some "db" ∧
    group_nodes [egNodeFarmDb] [egLoc] [egIfaceDb, egIfaceWeb]
      [egVlanDb, egVlanWeb] = .error .typeError :=
  ⟨rfl, rfl, rfl⟩

/-- Witness for the amended C6 on the well-formed snapshot: `egNode` has
exactly the two interfaces, on `"db"` and `"web"`, and lands in each group
exactly once. -/
theorem C6_witness :
    (egNode ∈ [egNode] ∧ ([egNode].map Node.name).Nodup ∧
      nodeVlans egNode [egIfaceDb, egIfaceWeb] = .ok ["db", "web"] ∧
      group_nodes [egNode] [egLoc] [egIfaceDb, egIfaceWeb]
        [egVlanDb, egVlanWeb] = .ok egGroupsOut) ∧
    ((∃ hs vs, dictGet? egGroupsOut "db" = some (.varG hs vs) ∧
        hs.count egNode.name = 1) ∧
      (∃ hs vs, dictGet? egGroupsOut "web" = some (.varG hs vs) ∧
        hs.count egNode.name = 1)) :=
  ⟨⟨List.mem_singleton.mpr rfl, by simp, rfl, rfl⟩,
    C6_amended_db_web_once [egNode] [egLoc] [egIfaceDb, egIfaceWeb]
      [egVlanDb, egVlanWeb] egNode ["db", "web"] egGroupsOut
      (List.mem_singleton.mpr rfl) (by simp) rfl (by decide) (by decide)
      (by
        intro location hl
        rw [show findLocation [egLoc] egNode = Except.ok egLoc from rfl] at hl
        obtain rfl := Except.ok.inj hl
        exact ⟨by decide, by decide⟩)
      rfl⟩

/-! ### Well-formed snapshots: the aggregation succeeds -/

theorem pyNext_ok_mem {α : Type} {p : α → Except PyErr Bool} {l : List α}
    {x : α} (h : pyNext p l = .ok x) : x ∈ l := by
  induction l with
  | nil => cases h
  | cons y ys ih =>
    rw [show pyNext p (y :: ys) =
      (p y >>= fun b => if b then .ok y else pyNext p ys) from rfl] at h
    cases hp : p y with
    | error e => rw [hp, pyBind_error] at h; cases h
    | ok b =>
      rw [hp, pyBind_ok] at h
      cases b with
      | true =>
        simp only [if_pos] at h
        exact (Except.ok.inj h) ▸ List.mem_cons_self y ys
      | false =>
        simp only [Bool.false_eq_true, if_neg, if_false] at h
        exact List.mem_cons_of_mem y (ih h)

theorem findLocation_ok_mem {locations : List Location} {n : Node}
    {l : Location} (h : findLocation locations n = .ok l) : l ∈ locations := by
  unfold findLocation at h
  exact pyNext_ok_mem h

theorem node_metadata_ok {n : Node} {f : String} (hip : n.public_ips ≠ [])
    (hf : n.extra.farm = some f) :
    ∃ hm, node_metadata_to_dict n = .ok hm := by
  cases hp : n.public_ips with
  | nil => exact absurd hp hip
  | cons ip rest =>
    unfold node_metadata_to_dict
    simp only [hp, hf, pyBind_ok]
    exact ⟨_, rfl⟩

theorem appendFarm_wf {locations : List Location} {ifaces : List Iface}
    {vlans : List Vlan} {done : List Node} {gs : Groups} {n : Node}
    {f : String}
    (hn : GoodNode locations ifaces vlans n)
    (hf : n.extra.farm = some f)
    (hcore : ShapeCore locations vlans done gs)
    (hmem : DcMembers locations done gs) :
    ∃ gs1, appendFarm gs f n.name = .ok gs1 ∧
      ShapeCore locations vlans (done ++ [n]) gs1 ∧
      DcMembers locations done gs1 := by
  obtain ⟨b1, b2, b3, b4⟩ := hcore
  obtain ⟨g1, g2, g3, g4, g5, g6, g7, g8⟩ := hn
  -- the binding at the farm key can only be absent or a bare list
  have hshape : dictGet? gs f = none ∨ ∃ hs, dictGet? gs f = some (.plain hs) := by
    cases hd : dictGet? gs f with
    | none => exact Or.inl rfl
    | some val =>
      cases val with
      | plain hs => exact Or.inr ⟨hs, rfl⟩
      | varG hs vs =>
        cases vs with
        | dc a b =>
          obtain ⟨l, hlmem, hkeq, -⟩ := b2 f hs a b hd
          exact absurd (hkeq ▸ hf) (g2 l hlmem)
        | vlan a b c =>
          obtain ⟨vl, hvlmem, hkeq⟩ := b3 f hs a b c hd
          exact absurd (hkeq ▸ hf) (g3 vl hvlmem)
      | metaG mm => exact absurd hd (b4 f mm)
  -- the step succeeds and writes a bare list under the farm key
  have hstep : ∃ hs', appendFarm gs f n.name = .ok (dictSet gs f (.plain hs')) := by
    rcases hshape with hd | ⟨hs, hd⟩
    · exact ⟨[n.name], by unfold appendFarm; rw [hd]⟩
    · exact ⟨hs ++ [n.name], by unfold appendFarm; rw [hd]⟩
  obtain ⟨hs', hstep⟩ := hstep
  refine ⟨dictSet gs f (.plain hs'), hstep, ⟨?_, ?_, ?_, ?_⟩, ?_⟩
  · intro k hs0 hd
    by_cases hk : f = k
    · subst hk
      exact ⟨n, List.mem_append_right done (List.mem_singleton.mpr rfl), hf⟩
    · rw [dictGet_dictSet_ne gs _ hk] at hd
      obtain ⟨nn, hnn, hfn⟩ := b1 k hs0 hd
      exact ⟨nn, List.mem_append_left _ hnn, hfn⟩
  · intro k hs0 a b hd
    by_cases hk : f = k
    · subst hk
      rw [dictGet_dictSet_self] at hd
      cases hd
    · rw [dictGet_dictSet_ne gs _ hk] at hd
      obtain ⟨l, hlmem, hkeq, hvars, hhosts⟩ := b2 k hs0 a b hd
      exact ⟨l, hlmem, hkeq, hvars, fun x hx =>
        (hhosts x hx).elim fun nn hnn =>
          ⟨nn, List.mem_append_left _ hnn.1, hnn.2⟩⟩
  · intro k hs0 a b c hd
    by_cases hk : f = k
    · subst hk
      rw [dictGet_dictSet_self] at hd
      cases hd
    · rw [dictGet_dictSet_ne gs _ hk] at hd
      exact b3 k hs0 a b c hd
  · intro k mm hd
    by_cases hk : f = k
    · subst hk
      rw [dictGet_dictSet_self] at hd
      cases hd
    · rw [dictGet_dictSet_ne gs _ hk] at hd
      exact b4 k mm hd
  · intro nn hnn
    obtain ⟨l, hs, hfl, hdl, hmeml⟩ := hmem nn hnn
    have hlmem : l ∈ locations := findLocation_ok_mem hfl
    have hfne : f ≠ l.name := fun hh =>
      g2 l hlmem (by rw [hf, hh])
    exact ⟨l, hs, hfl, by rw [dictGet_dictSet_ne gs _ hfne]; exact hdl, hmeml⟩

theorem appendDatacenter_wf {locations : List Location} {ifaces : List Iface}
    {vlans : List Vlan} {done : List Node} {gs1 : Groups} {n : Node}
    {location : Location}
    (hstat : GoodStatic locations vlans)
    (hdone : ∀ nn ∈ done ++ [n], GoodNode locations ifaces vlans nn)
    (hl : findLocation locations n = .ok location)
    (hcore : ShapeCore locations vlans (done ++ [n]) gs1)
    (hmem : DcMembers locations done gs1) :
    ∃ gs2, appendDatacenter gs1 location n.name = .ok gs2 ∧
      ShapeCore locations vlans (done ++ [n]) gs2 ∧
      DcMembers locations (done ++ [n]) gs2 := by
  obtain ⟨hs1stat, hs2stat, hs3stat, hs4stat⟩ := hstat
  obtain ⟨b1, b2, b3, b4⟩ := hcore
  have hlmem : location ∈ locations := findLocation_ok_mem hl
  have hmain : ∃ hs2',
      appendDatacenter gs1 location n.name =
        .ok (dictSet gs1 location.name (.varG hs2' (loc_to_dict location))) ∧
      (∀ x ∈ hs2', ∃ nn ∈ done ++ [n], nn.name = x ∧
        findLocation locations nn = .ok location) ∧
      n.name ∈ hs2' ∧
      (∀ hs0 vs0, dictGet? gs1 location.name = some (.varG hs0 vs0) →
        ∀ x ∈ hs0, x ∈ hs2') := by
    cases hd : dictGet? gs1 location.name with
    | none =>
      refine ⟨[n.name], by unfold appendDatacenter; rw [hd], ?_, ?_, ?_⟩
      · intro x hx
        obtain rfl := List.mem_singleton.mp hx
        exact ⟨n, List.mem_append_right done (List.mem_singleton.mpr rfl),
          rfl, hl⟩
      · exact List.mem_singleton.mpr rfl
      · intro hs0 vs0 hd'; cases hd'
    | some val =>
      cases val with
      | plain hs =>
        obtain ⟨nn, hnnmem, hfarm⟩ := b1 location.name hs hd
        obtain ⟨-, g2, -, -, -, -, -, -⟩ := hdone nn hnnmem
        exact absurd hfarm (g2 location hlmem)
      | varG hs vs =>
        cases vs with
        | dc a b =>
          obtain ⟨l', hl'mem, hkeq, hvars, hhosts⟩ := b2 location.name hs a b hd
          obtain rfl : location = l' := hs2stat location hlmem l' hl'mem hkeq
          refine ⟨hs ++ [n.name], ?_, ?_, ?_, ?_⟩
          · unfold appendDatacenter
            rw [hd, hvars]
          · intro x hx
            rcases List.mem_append.mp hx with hx | hx
            · obtain ⟨nn, hnn, hname, hfn⟩ := hhosts x hx
              exact ⟨nn, hnn, hname, hfn⟩
            · obtain rfl := List.mem_singleton.mp hx
              exact ⟨n, List.mem_append_right done (List.mem_singleton.mpr rfl),
                rfl, hl⟩
          · exact List.mem_append_right hs (List.mem_singleton.mpr rfl)
          · intro hs0 vs0 hd'
            obtain ⟨h1, -⟩ : hs = hs0 ∧ Vars.dc a b = vs0 := by
              have := Option.some.inj hd'
              injection this with h1 h2
              exact ⟨h1, h2⟩
            intro x hx
            exact List.mem_append_left _ (h1 ▸ hx)
        | vlan a b c =>
          obtain ⟨vl, hvlmem, hkeq⟩ := b3 location.name hs a b c hd
          exact absurd hkeq.symm (hs3stat vl hvlmem location hlmem)
      | metaG mm => exact absurd hd (b4 location.name mm)
  obtain ⟨hs2', hstep, hhosts2, hnmem2, hcompat⟩ := hmain
  refine ⟨_, hstep, ⟨?_, ?_, ?_, ?_⟩, ?_⟩
  · intro k hs0 hd
    by_cases hk : location.name = k
    · subst hk
      rw [dictGet_dictSet_self] at hd
      cases hd
    · rw [dictGet_dictSet_ne gs1 _ hk] at hd
      exact b1 k hs0 hd
  · intro k hs0 a b hd
    by_cases hk : location.name = k
    · subst hk
      rw [dictGet_dictSet_self] at hd
      obtain ⟨h1, h2⟩ : hs2' = hs0 ∧ loc_to_dict location = Vars.dc a b := by
        have := Option.some.inj hd
        injection this with x y
        exact ⟨x, y⟩
      exact ⟨location, hlmem, rfl, h2.symm, h1 ▸ hhosts2⟩
    · rw [dictGet_dictSet_ne gs1 _ hk] at hd
      exact b2 k hs0 a b hd
  · intro k hs0 a b c hd
    by_cases hk : location.name = k
    · subst hk
      rw [dictGet_dictSet_self] at hd
      have := Option.some.inj hd
      unfold loc_to_dict at this
      cases this
    · rw [dictGet_dictSet_ne gs1 _ hk] at hd
      exact b3 k hs0 a b c hd
  · intro k mm hd
    by_cases hk : location.name = k
    · subst hk
      rw [dictGet_dictSet_self] at hd
      cases hd
    · rw [dictGet_dictSet_ne gs1 _ hk] at hd
      exact b4 k mm hd
  · intro nn hnn
    rcases List.mem_append.mp hnn with hnn' | hnn'
    · obtain ⟨l, hs, hfl, hdl, hmm⟩ := hmem nn hnn'
      have hlmem' : l ∈ locations := findLocation_ok_mem hfl
      by_cases hk : l.name = location.name
      · obtain rfl : l = location := hs2stat l hlmem' location hlmem hk
        refine ⟨l, hs2', hfl, by rw [dictGet_dictSet_self], ?_⟩
        exact hcompat hs (loc_to_dict l) hdl nn.name hmm
      · refine ⟨l, hs, hfl, ?_, hmm⟩
        rw [dictGet_dictSet_ne gs1 _ (fun hh => hk hh.symm)]
        exact hdl
    · obtain rfl := List.mem_singleton.mp hnn'
      exact ⟨location, hs2', hl, by rw [dictGet_dictSet_self], hnmem2⟩


theorem appendVlan_wf {locations : List Location} {ifaces : List Iface}
    {vlans : List Vlan} {done : List Node} {gs : Groups} {n : Node}
    {v : String}
    (hstat : GoodStatic locations vlans)
    (hdone : ∀ nn ∈ done ++ [n], GoodNode locations ifaces vlans nn)
    (hv : ∃ vl ∈ vlans, vl.name = v)
    (hcore : ShapeCore locations vlans (done ++ [n]) gs)
    (hmem : DcMembers locations (done ++ [n]) gs) :
    ∃ gs', appendVlan vlans n.name gs v = .ok gs' ∧
      ShapeCore locations vlans (done ++ [n]) gs' ∧
      DcMembers locations (done ++ [n]) gs' := by
  obtain ⟨hs1stat, hs2stat, hs3stat, hs4stat⟩ := hstat
  obtain ⟨b1, b2, b3, b4⟩ := hcore
  obtain ⟨vl0, hvl0mem, hvl0name⟩ := hv
  -- the record lookup succeeds
  obtain ⟨rec, hnx, hrecmem, hrectrue⟩ :=
    @pyNext_ok_first Vlan (fun x => Except.ok (decide (v = x.name))) vlans
      (fun x _ => ⟨_, rfl⟩)
      ⟨vl0, hvl0mem, by
        show Except.ok (decide (v = vl0.name)) = Except.ok true
        rw [decide_eq_true hvl0name.symm]⟩
  -- the binding at the VLAN name can only be absent or a hosts/vars group
  -- with VLAN vars; either way the step writes VLAN vars under `v`
  have hmain : ∃ hs' a b c,
      appendVlan vlans n.name gs v =
        .ok (dictSet gs v (.varG hs' (.vlan a b c))) := by
    cases hd : dictGet? gs v with
    | none =>
      refine ⟨[n.name], rec.id, rec.subnet, rec.gateway, ?_⟩
      unfold appendVlan
      rw [hnx, pyBind_ok, hd]
      rfl
    | some val =>
      cases val with
      | plain hs =>
        obtain ⟨nn, hnnmem, hfarm⟩ := b1 v hs hd
        obtain ⟨-, -, g3, -, -, -, -, -⟩ := hdone nn hnnmem
        exact absurd hfarm (by rw [← hvl0name]; exact g3 vl0 hvl0mem)
      | varG hs vs =>
        cases vs with
        | dc a b =>
          obtain ⟨l, hlmem, hkeq, -⟩ := b2 v hs a b hd
          exact absurd (hvl0name.trans hkeq) (hs3stat vl0 hvl0mem l hlmem)
        | vlan a b c =>
          refine ⟨hs ++ [n.name], a, b, c, ?_⟩
          unfold appendVlan
          rw [hnx, pyBind_ok, hd]
      | metaG mm => exact absurd hd (b4 v mm)
  obtain ⟨hs', a, b, c, hstep⟩ := hmain
  refine ⟨_, hstep, ⟨?_, ?_, ?_, ?_⟩, ?_⟩
  · intro k hs0 hd
    by_cases hk : v = k
    · subst hk
      rw [dictGet_dictSet_self] at hd
      cases hd
    · rw [dictGet_dictSet_ne gs _ hk] at hd
      exact b1 k hs0 hd
  · intro k hs0 a' b' hd
    by_cases hk : v = k
    · subst hk
      rw [dictGet_dictSet_self] at hd
      have := Option.some.inj hd
      cases this
    · rw [dictGet_dictSet_ne gs _ hk] at hd
      exact b2 k hs0 a' b' hd
  · intro k hs0 a' b' c' hd
    by_cases hk : v = k
    · subst hk
      exact ⟨vl0, hvl0mem, hvl0name.symm⟩
    · rw [dictGet_dictSet_ne gs _ hk] at hd
      exact b3 k hs0 a' b' c' hd
  · intro k mm hd
    by_cases hk : v = k
    · subst hk
      rw [dictGet_dictSet_self] at hd
      cases hd
    · rw [dictGet_dictSet_ne gs _ hk] at hd
      exact b4 k mm hd
  · intro nn hnn
    obtain ⟨l, hs, hfl, hdl, hmm⟩ := hmem nn hnn
    have hlmem : l ∈ locations := findLocation_ok_mem hfl
    have hvne : v ≠ l.name := by
      rw [← hvl0name]
      exact hs3stat vl0 hvl0mem l hlmem
    exact ⟨l, hs, hfl, by rw [dictGet_dictSet_ne gs _ hvne]; exact hdl, hmm⟩

theorem vlanFold_wf {locations : List Location} {ifaces : List Iface}
    {vlans : List Vlan} {done : List Node} {n : Node}
    (hstat : GoodStatic locations vlans)
    (hdone : ∀ nn ∈ done ++ [n], GoodNode locations ifaces vlans nn) :
    ∀ (nv : List String) (gs : Groups),
      (∀ v ∈ nv, ∃ vl ∈ vlans, vl.name = v) →
      ShapeCore locations vlans (done ++ [n]) gs →
      DcMembers locations (done ++ [n]) gs →
      ∃ gs', List.foldlM (appendVlan vlans n.name) gs nv = .ok gs' ∧
        ShapeCore locations vlans (done ++ [n]) gs' ∧
        DcMembers locations (done ++ [n]) gs' := by
  intro nv
  induction nv with
  | nil => exact fun gs _ hcore hmem => ⟨gs, pyFoldlM_nil _ gs, hcore, hmem⟩
  | cons v rest ih =>
    intro gs hnv hcore hmem
    obtain ⟨gs1, hstep, hcore1, hmem1⟩ :=
      appendVlan_wf hstat hdone (hnv v (List.mem_cons_self v rest))
        hcore hmem
    obtain ⟨gs', hfold, hcore', hmem'⟩ :=
      ih gs1 (fun w hw => hnv w (List.mem_cons_of_mem v hw)) hcore1 hmem1
    exact ⟨gs', by rw [pyFoldlM_cons, hstep, pyBind_ok]; exact hfold,
      hcore', hmem'⟩

theorem processNode_wf {locations : List Location} {ifaces : List Iface}
    {vlans : List Vlan} {done : List Node} {n : Node}
    (hstat : GoodStatic locations vlans)
    (hdone : ∀ nn ∈ done ++ [n], GoodNode locations ifaces vlans nn)
    (gs : Groups) (m : Meta)
    (hcore : ShapeCore locations vlans done gs)
    (hmem : DcMembers locations done gs) :
    ∃ gs' m', processNode locations ifaces vlans (gs, m) n = .ok (gs', m') ∧
      ShapeCore locations vlans (done ++ [n]) gs' ∧
      DcMembers locations (done ++ [n]) gs' := by
  have hn : GoodNode locations ifaces vlans n :=
    hdone n (List.mem_append_right done (List.mem_singleton.mpr rfl))
  obtain ⟨g1, g2, g3, g4, g5, g6, g7, g8⟩ := hn
  obtain ⟨f, hf⟩ := Option.isSome_iff_exists.mp g1
  obtain ⟨location, hl, hlmem, hlmatch⟩ :=
    findLocation_ok hstat.1 g6
  obtain ⟨i, hi⟩ := Option.isSome_iff_exists.mp g5
  obtain ⟨nv, hnv, hch⟩ := nodeVlans_ok hi ifaces
  have hresolve : ∀ v ∈ nv, ∃ vl ∈ vlans, vl.name = v := by
    intro v hvnv
    obtain ⟨ifc, hifcmem, hvl, hnid⟩ := (hch v).mp hvnv
    obtain ⟨vl, hvlmem, hname⟩ :=
      g8 ifc hifcmem (by rw [hi, hnid]) (by rw [hvl]; exact fun hh => by cases hh)
    refine ⟨vl, hvlmem, ?_⟩
    rw [hvl] at hname
    exact Option.some.inj hname
  obtain ⟨hm, hmd⟩ := node_metadata_ok g4 hf
  obtain ⟨gs1, haf, hcore1, hmem1⟩ :=
    appendFarm_wf ⟨g1, g2, g3, g4, g5, g6, g7, g8⟩ hf hcore hmem
  obtain ⟨gs2, had, hcore2, hmem2⟩ :=
    appendDatacenter_wf hstat hdone hl hcore1 hmem1
  obtain ⟨gs3, hfoldv, hcore3, hmem3⟩ :=
    vlanFold_wf hstat hdone nv gs2 hresolve hcore2 hmem2
  exact ⟨gs3, { hostvars := dictSet m.hostvars n.name hm },
    processNode_ok_build m hf hl hnv hmd haf had hfoldv, hcore3, hmem3⟩

theorem foldNodes_wf {locations : List Location} {ifaces : List Iface}
    {vlans : List Vlan} (hstat : GoodStatic locations vlans) :
    ∀ (rest done : List Node) (gs : Groups) (m : Meta),
      (∀ nn ∈ done ++ rest, GoodNode locations ifaces vlans nn) →
      ShapeCore locations vlans done gs →
      DcMembers locations done gs →
      ∃ gs' m', List.foldlM (processNode locations ifaces vlans) (gs, m)
          rest = .ok (gs', m') ∧
        ShapeCore locations vlans (done ++ rest) gs' ∧
        DcMembers locations (done ++ rest) gs' := by
  intro rest
  induction rest with
  | nil =>
    intro done gs m hgood hcore hmem
    exact ⟨gs, m, pyFoldlM_nil _ (gs, m), by simpa using hcore,
      by simpa using hmem⟩
  | cons n rest' ih =>
    intro done gs m hgood hcore hmem
    have hdone1 : ∀ nn ∈ done ++ [n], GoodNode locations ifaces vlans nn := by
      intro nn hnn
      rcases List.mem_append.mp hnn with h | h
      · exact hgood nn (List.mem_append_left _ h)
      · obtain rfl := List.mem_singleton.mp h
        exact hgood nn (List.mem_append_right done (List.mem_cons_self _ _))
    obtain ⟨gs1, m1, hstep, hcore1, hmem1⟩ :=
      processNode_wf hstat hdone1 gs m hcore hmem
    have hgood' : ∀ nn ∈ (done ++ [n]) ++ rest',
        GoodNode locations ifaces vlans nn := by
      intro nn hnn
      rw [List.append_assoc, List.singleton_append] at hnn
      exact hgood nn hnn
    obtain ⟨gs', m', hfold, hcore', hmem'⟩ :=
      ih (done ++ [n]) gs1 m1 hgood' hcore1 hmem1
    refine ⟨gs', m', ?_, ?_, ?_⟩
    · rw [pyFoldlM_cons, hstep, pyBind_ok]
      exact hfold
    · rw [List.append_assoc, List.singleton_append] at hcore'
      exact hcore'
    · rw [List.append_assoc, List.singleton_append] at hmem'
      exact hmem'

theorem pyNext_ok_pred {α : Type} {p : α → Except PyErr Bool} {l : List α}
    {x : α} (h : pyNext p l = .ok x) : p x = .ok true := by
  induction l with
  | nil => cases h
  | cons y ys ih =>
    rw [show pyNext p (y :: ys) =
      (p y >>= fun b => if b then .ok y else pyNext p ys) from rfl] at h
    cases hp : p y with
    | error e => rw [hp, pyBind_error] at h; cases h
    | ok b =>
      rw [hp, pyBind_ok] at h
      cases b with
      | true =>
        simp only [if_pos] at h
        rw [← Except.ok.inj h]
        exact hp
      | false =>
        simp only [Bool.false_eq_true, if_neg, if_false] at h
        exact ih h

theorem findLocation_ok_matches {locations : List Location} {n : Node}
    {l : Location} (h : findLocation locations n = .ok l) :
    locMatches l n.extra.datacenter_id := by
  unfold findLocation at h
  have hp := pyNext_ok_pred h
  cases hpi : pyInt l.id with
  | error e =>
    rw [hpi, pyBind_error] at hp
    cases hp
  | ok i =>
    rw [hpi, pyBind_ok] at hp
    have hdec : decide (i = n.extra.datacenter_id) = true := Except.ok.inj hp
    have hieq : i = n.extra.datacenter_id := of_decide_eq_true hdec
    unfold locMatches
    rw [← hieq]
    exact pyInt_ok_iff.mp hpi

/-- C1 (amended): on a snapshot whose nodes, locations, interfaces and VLANs
are well-formed — every node's datacenter id matches exactly one location
(the claim's own hypothesis), and in addition every node's farm key is
present and collides with no location or VLAN name, its public-IP list is
non-empty, node and location ids parse as integers, every referenced VLAN
name resolves, node names and location names are unambiguous, VLAN names
collide with no location name, and no location is named `"_meta"` — the
aggregation succeeds, and every node's name appears in exactly one
datacenter group: the one keyed by its matching location's name, whose vars
are `loc_to_dict` of that location. -/
theorem C1_amended_datacenter_grouping (nodes : List Node)
    (locations : List Location) (ifaces : List Iface) (vlans : List Vlan)
    (hwf : WellFormedInput nodes locations ifaces vlans) :
    ∃ gs, group_nodes nodes locations ifaces vlans = .ok gs ∧
      ∀ n ∈ nodes, ∃ l hs, l ∈ locations ∧
        locMatches l n.extra.datacenter_id ∧
        dictGet? gs l.name = some (.varG hs (loc_to_dict l)) ∧ n.name ∈ hs ∧
        ∀ k hs' a b, dictGet? gs k = some (.varG hs' (.dc a b)) →
          n.name ∈ hs' → k = l.name := by
  obtain ⟨hstat, hnodup, hgood⟩ := hwf
  have hcore0 : ShapeCore locations vlans [] [] := by
    refine ⟨?_, ?_, ?_, ?_⟩
    · intro k hs hd; simp [dictGet?] at hd
    · intro k hs a b hd; simp [dictGet?] at hd
    · intro k hs a b c hd; simp [dictGet?] at hd
    · intro k mm hd; simp [dictGet?] at hd
  have hmem0 : DcMembers locations [] [] := fun nn hnn => absurd hnn
    (List.not_mem_nil nn)
  obtain ⟨gsF, m, hfold, hcoreF, hmemF⟩ :=
    foldNodes_wf hstat nodes [] [] { hostvars := [] }
      (by simpa using hgood) hcore0 hmem0
  rw [List.nil_append] at hcoreF hmemF
  refine ⟨dictSet gsF "_meta" (.metaG m), group_nodes_ok_build hfold, ?_⟩
  intro n hn
  obtain ⟨l, hs, hfl, hdl, hmm⟩ := hmemF n hn
  have hlmem : l ∈ locations := findLocation_ok_mem hfl
  have hlmatch : locMatches l n.extra.datacenter_id :=
    findLocation_ok_matches hfl
  have hlnm : l.name ≠ "_meta" := hstat.2.2.2 l hlmem
  refine ⟨l, hs, hlmem, hlmatch, ?_, hmm, ?_⟩
  · rw [dictGet_dictSet_ne gsF _ (fun hh => hlnm hh.symm)]
    exact hdl
  · intro k hs' a b hdk hnk
    by_cases hkm : k = "_meta"
    · subst hkm
      rw [dictGet_dictSet_self] at hdk
      cases Option.some.inj hdk
    · rw [dictGet_dictSet_ne gsF _ (fun hh => hkm hh.symm)] at hdk
      obtain ⟨l', hl'mem, hkeq, hvars, hhosts⟩ := hcoreF.2.1 k hs' a b hdk
      obtain ⟨nn, hnnmem, hname, hfln⟩ := hhosts n.name hnk
      obtain rfl : nn = n :=
        List.inj_on_of_nodup_map hnodup hnnmem hn hname
      rw [hfl] at hfln
      obtain rfl := Except.ok.inj hfln
      exact hkeq

/-- C1 (counterexample): a node whose datacenter id matches exactly one
location — the claim's full hypothesis — but whose public-IP list is empty.
The aggregation does not succeed: it aborts with the `IndexError` of
`node.public_ips[0]`, refuting the claim as stated. -/
theorem C1_counterexample :
    (List.filter
      (fun l => decide (locMatches l egNodeNoIp.extra.datacenter_id))
      [egLoc]).length = 1 ∧
    group_nodes [egNodeNoIp] [egLoc] [] [] = .error .indexError :=
  ⟨rfl, rfl⟩

/-- Witness for the amended C1 on the well-formed snapshot. -/
theorem C1_witness :
    WellFormedInput [egNode] [egLoc] [egIfaceDb, egIfaceWeb]
      [egVlanDb, egVlanWeb] ∧
    ∃ gs, group_nodes [egNode] [egLoc] [egIfaceDb, egIfaceWeb]
        [egVlanDb, egVlanWeb] = .ok gs ∧
      ∀ n ∈ [egNode], ∃ l hs, l ∈ [egLoc] ∧
        locMatches l n.extra.datacenter_id ∧
        dictGet? gs l.name = some (.varG hs (loc_to_dict l)) ∧ n.name ∈ hs ∧
        ∀ k hs' a b, dictGet? gs k = some (.varG hs' (.dc a b)) →
          n.name ∈ hs' → k = l.name :=
  ⟨by decide,
    C1_amended_datacenter_grouping [egNode] [egLoc]
      [egIfaceDb, egIfaceWeb] [egVlanDb, egVlanWeb] (by decide)⟩
